import Mathlib

/-!
# RetargetingClient (walking-controllers, RetargetingHelper)

A shallow embedding of `RetargetingHelper/src/Helper.cpp` and its header.

Conventions of the embedding
* A `double` is its value, a rational (`ℚ`). The operations `-`, `*` and `+` on doubles
  round; they are a parameter of the model (`DoubleArithmetic`), and every statement
  holds for every choice of them. A comparison of two doubles is exact.
* A `yarp::sig::Vector` / `iDynTree::VectorDynSize` is a `List ℚ`.
* Every member function is a function on the record of the member variables.
  A function returns `none` where the C++ has undefined behaviour: a call
  through a null `std::unique_ptr`, or an element access outside a vector.
* `yarp::os::Time::now()` is an argument (`now`) of the functions that read the clock.
* A non-blocking `port.read(false)` is an argument too: `none` is the null pointer
  (no sample), `some v` the sample received.
* The smoother `iCub::ctrl::minJerkTrajGen` belongs to an external library. It is
  modelled through its interface: `setT` stores the time constant, `init` sets the
  output, and `computeNextValues` advances the output by a filter law that is a
  parameter of the model.
* An assignment between Eigen maps (`toEigen(a) = toEigen(b)`) needs equal sizes;
  with different sizes the function returns `none`.
-/

namespace WalkingControllers

/-! ## Data model (Helper.h) -/

/-- The phase of the retargeting client, `RetargetingClient::Phase`. -/
inductive Phase where
  | approacing
  | stance
  | walking
  deriving DecidableEq, Repr

/-- The minimum-jerk smoother `iCub::ctrl::minJerkTrajGen`, an external library object
seen through the operations the client uses. `Ts` is the sample time, `T` the
time constant, `pos` and `vel` the current output. `setTCalls` counts the calls of
`setT` the object has received; it is a history variable, not a field of the object. -/
structure minJerkTrajGen where
  Ts : ℚ
  T : ℚ
  pos : List ℚ
  vel : List ℚ
  setTCalls : Nat
  deriving DecidableEq, Repr

/-- The struct `RetargetingElement<Data>`. `smoother` is the `unique_ptr` (`none` is null);
`port` is `none` while the port is closed and holds the port name once opened. -/
structure RetargetingElement (Data : Type) where
  yarpReadBuffer : List ℚ
  smoother : Option minJerkTrajGen
  port : Option String
  smoothingTimeInApproaching : ℚ
  smoothingTimeInWalking : ℚ
  data : Data
  deriving DecidableEq, Repr

/-- An `iDynTree::Transform` built by `setPosition` and `Rotation::RPY`: the position and
the roll-pitch-yaw angles the rotation was built from. -/
structure Transform where
  position : ℚ × ℚ × ℚ
  rpy : ℚ × ℚ × ℚ
  deriving DecidableEq, Repr

/-- The struct `RetargetingClient::KinematicState`. -/
structure KinematicState where
  position : ℚ
  velocity : ℚ
  deriving DecidableEq, Repr

/-- The member variables of `RetargetingClient`. -/
structure RetargetingClient where
  m_useHandRetargeting : Bool
  m_useVirtualizer : Bool
  m_useJointRetargeting : Bool
  m_useCoMHeightRetargeting : Bool
  m_leftHand : RetargetingElement Transform
  m_rightHand : RetargetingElement Transform
  m_comHeightInputOffset : ℚ
  m_comConstantHeight : ℚ
  m_comHeightScalingFactor : ℚ
  m_comHeight : RetargetingElement KinematicState
  m_retargetJointsIndex : List Nat
  m_jointRetargeting : RetargetingElement (List ℚ)
  m_robotOrientationPort : Option String
  m_phase : Phase
  m_startingApproachingPhaseTime : ℚ
  m_approachPhaseDuration : ℚ
  deriving DecidableEq, Repr

/-! ## The arithmetic of `double` -/

/-- The three operations on `double` the client uses: `a - b`, `a * b` and `a + b`, each with
the rounding of the platform (IEEE 754 binary64 on the robot). They are a parameter of the
model; no statement below depends on how they round. A build that fuses the product and
the sum of the CoM-height target into one rounding is the choice in which `mul` does not
round. A comparison `a > b` of two doubles does not round and is the comparison of their
values. -/
structure DoubleArithmetic where
  sub : ℚ → ℚ → ℚ
  mul : ℚ → ℚ → ℚ
  add : ℚ → ℚ → ℚ

/-- The arithmetic without rounding. Binary64 agrees with it wherever the operands and the
exact result are doubles, as for the small integers and binary fractions of the sample
runs. -/
def exactArithmetic : DoubleArithmetic :=
  { sub := fun a b => a - b, mul := fun a b => a * b, add := fun a b => a + b }

/-! ## The smoother interface -/

/-- The constructor `minJerkTrajGen(dim, Ts, T)`: output at rest in the origin. -/
def minJerkTrajGen.create (dim : Nat) (Ts T : ℚ) : minJerkTrajGen :=
  { Ts := Ts, T := T, pos := List.replicate dim 0, vel := List.replicate dim 0, setTCalls := 0 }

/-- The call `setT(T)`: a new time constant, the output is kept. -/
def minJerkTrajGen.setT (g : minJerkTrajGen) (T : ℚ) : minJerkTrajGen :=
  { g with T := T, setTCalls := g.setTCalls + 1 }

/-- The call `init(y0)`: the output is `y0` with zero velocity. -/
def minJerkTrajGen.init (g : minJerkTrajGen) (y0 : List ℚ) : minJerkTrajGen :=
  { g with pos := y0, vel := List.replicate y0.length 0 }

/-- The filter law of the smoother: from the object and the target, the next position
and velocity. It belongs to the external library and is a parameter of the model. -/
abbrev FilterLaw := minJerkTrajGen → List ℚ → List ℚ × List ℚ

/-- The call `computeNextValues(y)`: one step of the filter towards the target `y`. -/
def minJerkTrajGen.computeNextValues (law : FilterLaw) (g : minJerkTrajGen) (y : List ℚ) :
    minJerkTrajGen :=
  { g with pos := (law g y).1, vel := (law g y).2 }

/-- The statement `e.smoother->setT(T)`; null pointer: `none`. -/
def RetargetingElement.smootherSetT {Data : Type} (e : RetargetingElement Data) (T : ℚ) :
    Option (RetargetingElement Data) :=
  match e.smoother with
  | none => none
  | some g => some { e with smoother := some (g.setT T) }

/-! ## The phase machine (Helper.cpp, `setPhase`, `stopApproachingPhase`,
`startApproachingPhase`, `isApproachingPhase`) -/

/-- The function `RetargetingClient::stopApproachingPhase`. -/
def stopApproachingPhase (c : RetargetingClient) : Option RetargetingClient := do
  let c ← (if c.m_useHandRetargeting then do
      let l ← c.m_leftHand.smootherSetT c.m_leftHand.smoothingTimeInWalking
      let r ← c.m_rightHand.smootherSetT c.m_rightHand.smoothingTimeInWalking
      pure { c with m_leftHand := l, m_rightHand := r }
    else pure c)
  let c ← (if c.m_useJointRetargeting then do
      let j ← c.m_jointRetargeting.smootherSetT c.m_jointRetargeting.smoothingTimeInWalking
      pure { c with m_jointRetargeting := j }
    else pure c)
  let c ← (if c.m_useCoMHeightRetargeting then do
      let h ← c.m_comHeight.smootherSetT c.m_comHeight.smoothingTimeInWalking
      pure { c with m_comHeight := h }
    else pure c)
  pure { c with m_phase := Phase.stance }

/-- The function `RetargetingClient::startApproachingPhase`, the clock reading `now`. -/
def startApproachingPhase (now : ℚ) (c : RetargetingClient) : Option RetargetingClient :=
  if !c.m_useHandRetargeting && !c.m_useJointRetargeting && !c.m_useCoMHeightRetargeting then
    pure c
  else do
    let c := { c with m_startingApproachingPhaseTime := now }
    let c ← (if c.m_useHandRetargeting then do
        let l ← c.m_leftHand.smootherSetT c.m_leftHand.smoothingTimeInApproaching
        let r ← c.m_rightHand.smootherSetT c.m_rightHand.smoothingTimeInApproaching
        pure { c with m_leftHand := l, m_rightHand := r }
      else pure c)
    let c ← (if c.m_useJointRetargeting then do
        let j ← c.m_jointRetargeting.smootherSetT c.m_jointRetargeting.smoothingTimeInApproaching
        pure { c with m_jointRetargeting := j }
      else pure c)
    let c ← (if c.m_useCoMHeightRetargeting then do
        let h ← c.m_comHeight.smootherSetT c.m_comHeight.smoothingTimeInApproaching
        pure { c with m_comHeight := h }
      else pure c)
    pure c

/-- The function `RetargetingClient::setPhase`, the clock reading `now`. -/
def setPhase (phase : Phase) (now : ℚ) (c : RetargetingClient) : Option RetargetingClient := do
  let c ← (if phase = Phase.approacing then startApproachingPhase now c else pure c)
  let c ← (if c.m_phase = Phase.approacing ∧ phase = Phase.walking then stopApproachingPhase c
    else pure c)
  let c ← (if c.m_phase = Phase.approacing ∧ phase = Phase.stance then stopApproachingPhase c
    else pure c)
  pure { c with m_phase := phase }

/-- The function `RetargetingClient::isApproachingPhase`. -/
def isApproachingPhase (c : RetargetingClient) : Bool :=
  c.m_phase = Phase.approacing

/-! ## The feedback tick (Helper.cpp, `getFeedback`) -/

/-- The element access `v(i)` of a vector; outside the vector: `none`. -/
def vectorAt (v : List ℚ) (i : Nat) : Option ℚ := v[i]?

/-- The assignment `v(i) = x` to an element of a vector; outside the vector: `none`. -/
def vectorWrite (v : List ℚ) (i : Nat) (x : ℚ) : Option (List ℚ) :=
  if i < v.length then some (v.set i x) else none

/-- The function `RetargetingClient::convertYarpVectorPoseIntoTransform`: position from the
entries 0, 1, 2 and roll-pitch-yaw from the entries 3, 4, 5. -/
def convertYarpVectorPoseIntoTransform (vector : List ℚ) : Option Transform := do
  let x ← vectorAt vector 0
  let y ← vectorAt vector 1
  let z ← vectorAt vector 2
  let roll ← vectorAt vector 3
  let pitch ← vectorAt vector 4
  let yaw ← vectorAt vector 5
  pure { position := (x, y, z), rpy := (roll, pitch, yaw) }

/-- The lambda `getHandFeedback` of `getFeedback`; `desiredHandPose` is the result of the
non-blocking read of the port of the hand. -/
def getHandFeedback (law : FilterLaw) (desiredHandPose : Option (List ℚ))
    (hand : RetargetingElement Transform) : Option (RetargetingElement Transform) := do
  let hand := (match desiredHandPose with
    | some v => { hand with yarpReadBuffer := v }
    | none => hand)
  let g ← hand.smoother
  let g := g.computeNextValues law hand.yarpReadBuffer
  let d ← convertYarpVectorPoseIntoTransform g.pos
  pure { hand with smoother := some g, data := d }

/-- The loop of `getFeedback` over a joint sample (the `scatterJointUpdate` of the design):
`for i < desiredJoint.size(): yarpReadBuffer(m_retargetJointsIndex[i]) = desiredJoint(i)`,
by recursion on the sample and the index vector from position `i` on. An index vector
that ends before the sample, or an index outside the buffer: `none`. -/
def scatterJointUpdate : List ℚ → List Nat → List ℚ → Option (List ℚ)
  | [], _, buffer => some buffer
  | _ :: _, [], _ => none
  | x :: desiredJoint, k :: retargetJointsIndex, buffer =>
    (vectorWrite buffer k x).bind (scatterJointUpdate desiredJoint retargetJointsIndex)

/-- The results of the non-blocking reads of one tick, one for each input port. -/
structure PortReads where
  leftHand : Option (List ℚ)
  rightHand : Option (List ℚ)
  joint : Option (List ℚ)
  comHeight : Option (List ℚ)
  deriving DecidableEq, Repr

/-- The hand block of `getFeedback`: `if(m_useHandRetargeting) ...`. -/
def getFeedbackHands (law : FilterLaw) (reads : PortReads) (c : RetargetingClient) :
    Option RetargetingClient :=
  if c.m_useHandRetargeting then do
    let l ← getHandFeedback law reads.leftHand c.m_leftHand
    let r ← getHandFeedback law reads.rightHand c.m_rightHand
    pure { c with m_leftHand := l, m_rightHand := r }
  else pure c

/-- The joint block of `getFeedback`: `if(m_useJointRetargeting) ...`. The last statement
assigns the position of the smoother to `data` through Eigen maps, which have to agree in size. -/
def getFeedbackJoints (law : FilterLaw) (reads : PortReads) (c : RetargetingClient) :
    Option RetargetingClient :=
  if c.m_useJointRetargeting then do
    let buffer ← (match reads.joint with
      | some desiredJoint =>
        scatterJointUpdate desiredJoint c.m_retargetJointsIndex c.m_jointRetargeting.yarpReadBuffer
      | none => some c.m_jointRetargeting.yarpReadBuffer)
    let g ← c.m_jointRetargeting.smoother
    let g := g.computeNextValues law buffer
    if g.pos.length = c.m_jointRetargeting.data.length then
      pure { c with m_jointRetargeting :=
        { c.m_jointRetargeting with yarpReadBuffer := buffer, smoother := some g, data := g.pos } }
    else none
  else pure c

/-- The CoM-height block of `getFeedback`: `if(m_useCoMHeightRetargeting) ...`. In the walking
phase the port is not read. The target of a sample is computed in doubles: a subtraction,
a product and a sum, each with its rounding. -/
def getFeedbackCoMHeight (ar : DoubleArithmetic) (law : FilterLaw) (reads : PortReads)
    (c : RetargetingClient) : Option RetargetingClient :=
  if c.m_useCoMHeightRetargeting then do
    let buffer ← (if c.m_phase = Phase.walking then
        vectorWrite c.m_comHeight.yarpReadBuffer 0 c.m_comConstantHeight
      else match reads.comHeight with
        | some desiredCoMHeight => do
          let z ← vectorAt desiredCoMHeight 2
          vectorWrite c.m_comHeight.yarpReadBuffer 0
            (ar.add (ar.mul (ar.sub z c.m_comHeightInputOffset) c.m_comHeightScalingFactor)
              c.m_comConstantHeight)
        | none => some c.m_comHeight.yarpReadBuffer)
    let g ← c.m_comHeight.smoother
    let g := g.computeNextValues law buffer
    let position ← vectorAt g.pos 0
    let velocity ← vectorAt g.vel 0
    pure { c with m_comHeight :=
      { c.m_comHeight with yarpReadBuffer := buffer, smoother := some g,
                           data := { position := position, velocity := velocity } } }
  else pure c

/-- The end of `getFeedback`: "check if the approaching phase is finished". The clock is
read only in the approach phase. The elapsed time is the difference of two doubles, with its
rounding; its comparison with the duration is exact. -/
def getFeedbackCheckApproaching (ar : DoubleArithmetic) (now : ℚ) (c : RetargetingClient) :
    Option RetargetingClient :=
  if c.m_phase = Phase.approacing then
    if ar.sub now c.m_startingApproachingPhaseTime > c.m_approachPhaseDuration then
      stopApproachingPhase c
    else pure c
  else pure c

/-- The function `RetargetingClient::getFeedback`: the four blocks in sequence. -/
def getFeedback (ar : DoubleArithmetic) (law : FilterLaw) (reads : PortReads) (now : ℚ)
    (c : RetargetingClient) :
    Option RetargetingClient := do
  let c ← getFeedbackHands law reads c
  let c ← getFeedbackJoints law reads c
  let c ← getFeedbackCoMHeight ar law reads c
  getFeedbackCheckApproaching ar now c

/-- A sequence of ticks, each with the reads and the clock reading of the tick. -/
def getFeedbackMany (ar : DoubleArithmetic) (law : FilterLaw) :
    List (PortReads × ℚ) → RetargetingClient → Option RetargetingClient
  | [], c => some c
  | (reads, now) :: rest, c => (getFeedback ar law reads now c).bind (getFeedbackMany ar law rest)

/-- A call of the phase setter or of the tick, with what the call reads: the clock, and for
the tick the ports. -/
inductive Call where
  | setPhase (phase : Phase) (now : ℚ)
  | getFeedback (reads : PortReads) (now : ℚ)
  deriving DecidableEq, Repr

/-- One call on the client. -/
def runCall (ar : DoubleArithmetic) (law : FilterLaw) :
    Call → RetargetingClient → Option RetargetingClient
  | Call.setPhase phase now, c => setPhase phase now c
  | Call.getFeedback reads now, c => getFeedback ar law reads now c

/-- A sequence of calls on the client, from left to right. -/
def runCalls (ar : DoubleArithmetic) (law : FilterLaw) :
    List Call → RetargetingClient → Option RetargetingClient
  | [], c => some c
  | call :: rest, c => (runCall ar law call c).bind (runCalls ar law rest)

/-! ## Configuration and start-up (Helper.cpp, the functions of lines 27 to 282) -/

/-- Modelled from the spec: the group `HAND_RETARGETING` of the configuration, read through
the getters of `YarpUtilities`, which are not part of these sources. A field is `none` when
the getter fails (key absent or of the wrong type). -/
structure HandRetargetingGroup where
  left_hand_transform_port_name : Option String
  right_hand_transform_port_name : Option String
  smoothing_time_approaching : Option ℚ
  smoothing_time_walking : Option ℚ
  deriving DecidableEq, Repr

/-- Modelled from the spec: the group `JOINT_RETARGETING` of the configuration. The joint
list is `none` when the key is absent, `some none` when the value is not a list of strings. -/
structure JointRetargetingGroup where
  retargeting_joint_list : Option (Option (List String))
  joint_retargeting_port_name : Option String
  smoothing_time_approaching : Option ℚ
  smoothing_time_walking : Option ℚ
  deriving DecidableEq, Repr

/-- Modelled from the spec: the group `VIRTUALIZER` of the configuration. -/
structure VirtualizerGroup where
  robot_orientation_port_name : Option String
  deriving DecidableEq, Repr

/-- Modelled from the spec: the group `COM_RETARGETING` of the configuration. -/
structure CoMRetargetingGroup where
  com_height_retargeting_port_name : Option String
  smoothing_time_approaching : Option ℚ
  smoothing_time_walking : Option ℚ
  com_height_scaling_factor : Option ℚ
  deriving DecidableEq, Repr

/-- Modelled from the spec: the configuration, a `yarp::os::Searchable`. A missing group is a
group whose fields are all `none`; a missing flag is `none` and reads as false. -/
structure Searchable where
  isNull : Bool
  use_hand_retargeting : Option Bool
  use_joint_retargeting : Option Bool
  use_virtualizer : Option Bool
  use_com_retargeting : Option Bool
  approaching_phase_duration : Option ℚ
  HAND_RETARGETING : HandRetargetingGroup
  JOINT_RETARGETING : JointRetargetingGroup
  VIRTUALIZER : VirtualizerGroup
  COM_RETARGETING : CoMRetargetingGroup
  deriving DecidableEq, Repr

/-- The call `v.resize(n)` of a vector: the first entries are kept; the value of a new entry,
which the C++ leaves open, is 0 here. -/
def resizeVector (v : List ℚ) (n : Nat) : List ℚ :=
  v.take n ++ List.replicate (n - v.length) 0

/-- The expression `std::distance(names.begin(), std::find(names.begin(), names.end(), joint))`:
the position of the first occurrence of `joint`, and `names.size()` when there is none. The
result is stored in an `int`, which is exact for fewer than 2^31 names. -/
def findJointIndex (controlledJointNames : List String) (joint : String) : Nat :=
  controlledJointNames.indexOf joint

/-- The outcome of a block that may `return false`: the flag tells whether to go on. -/
abbrev Outcome := Bool × RetargetingClient

/-- Sequencing of blocks: the next block runs unless the one before has returned false. -/
def Outcome.andThen (o : Outcome) (f : RetargetingClient → Outcome) : Outcome :=
  if o.1 then f o.2 else o

/-- The lambda `initializeHand` of the start-up; `portName` is the value found under the
label of the port name of the hand. -/
def initializeHand (option : HandRetargetingGroup) (name : String) (period : ℚ)
    (portName : Option String) (hand : RetargetingElement Transform) :
    Bool × RetargetingElement Transform :=
  match portName with
  | none => (false, hand)
  | some portName =>
    let hand := { hand with port := some ("/" ++ name ++ portName) }
    match option.smoothing_time_approaching with
    | none => (false, hand)
    | some smoothingTimeApproching =>
      let hand := { hand with smoothingTimeInApproaching := smoothingTimeApproching }
      match option.smoothing_time_walking with
      | none => (false, hand)
      | some smoothingTimeWalking =>
        (true, { hand with smoothingTimeInWalking := smoothingTimeWalking,
                           yarpReadBuffer := resizeVector hand.yarpReadBuffer 6,
                           smoother := some (minJerkTrajGen.create 6 period
                             hand.smoothingTimeInApproaching) })

/-- The block `if(m_useHandRetargeting)` of the start-up: the left hand, then the right hand
unless the left one has failed. -/
def initializeHands (config : Searchable) (name : String) (period : ℚ) (c : RetargetingClient) :
    Outcome :=
  if c.m_useHandRetargeting then
    let l := initializeHand config.HAND_RETARGETING name period
      config.HAND_RETARGETING.left_hand_transform_port_name c.m_leftHand
    if l.1 then
      let r := initializeHand config.HAND_RETARGETING name period
        config.HAND_RETARGETING.right_hand_transform_port_name c.m_rightHand
      (r.1, { c with m_leftHand := l.2, m_rightHand := r.2 })
    else (false, { c with m_leftHand := l.2 })
  else (true, c)

/-- The block `if(m_useJointRetargeting)` of the start-up. The loop "find the indices" pushes
one index for each retargeted joint name, found or not. -/
def initializeJoints (config : Searchable) (name : String) (period : ℚ)
    (controlledJointNames : List String) (c : RetargetingClient) : Outcome :=
  if c.m_useJointRetargeting then
    match config.JOINT_RETARGETING.retargeting_joint_list with
    | none => (false, c)
    | some none => (false, c)
    | some (some retargetJointNames) =>
      let c := { c with m_retargetJointsIndex := c.m_retargetJointsIndex ++
        retargetJointNames.map (findJointIndex controlledJointNames) }
      match config.JOINT_RETARGETING.joint_retargeting_port_name with
      | none => (false, c)
      | some portName =>
        let c := { c with m_jointRetargeting :=
          { c.m_jointRetargeting with port := some ("/" ++ name ++ portName) } }
        match config.JOINT_RETARGETING.smoothing_time_approaching with
        | none => (false, c)
        | some a =>
          let c := { c with m_jointRetargeting :=
            { c.m_jointRetargeting with smoothingTimeInApproaching := a } }
          match config.JOINT_RETARGETING.smoothing_time_walking with
          | none => (false, c)
          | some w =>
            (true, { c with m_jointRetargeting :=
              { c.m_jointRetargeting with
                  smoothingTimeInWalking := w,
                  smoother := some (minJerkTrajGen.create controlledJointNames.length period
                    c.m_jointRetargeting.smoothingTimeInApproaching) } })
  else (true, c)

/-- The block `if(m_useVirtualizer)` of the start-up. -/
def initializeVirtualizer (config : Searchable) (name : String) (c : RetargetingClient) :
    Outcome :=
  if c.m_useVirtualizer then
    match config.VIRTUALIZER.robot_orientation_port_name with
    | none => (false, c)
    | some portName => (true, { c with m_robotOrientationPort := some ("/" ++ name ++ portName) })
  else (true, c)

/-- The block `if(m_useCoMHeightRetargeting)` of the start-up. -/
def initializeCoMHeight (config : Searchable) (name : String) (period : ℚ)
    (c : RetargetingClient) : Outcome :=
  if c.m_useCoMHeightRetargeting then
    let c := { c with m_comHeight :=
      { c.m_comHeight with yarpReadBuffer := resizeVector c.m_comHeight.yarpReadBuffer 1 } }
    match config.COM_RETARGETING.com_height_retargeting_port_name with
    | none => (false, c)
    | some portName =>
      let c := { c with m_comHeight :=
        { c.m_comHeight with port := some ("/" ++ name ++ portName) } }
      match config.COM_RETARGETING.smoothing_time_approaching with
      | none => (false, c)
      | some a =>
        let c := { c with m_comHeight := { c.m_comHeight with smoothingTimeInApproaching := a } }
        match config.COM_RETARGETING.smoothing_time_walking with
        | none => (false, c)
        | some w =>
          let c := { c with m_comHeight :=
            { c.m_comHeight with
                smoothingTimeInWalking := w,
                smoother := some (minJerkTrajGen.create 1 period
                  c.m_comHeight.smoothingTimeInApproaching) } }
          match config.COM_RETARGETING.com_height_scaling_factor with
          | none => (false, c)
          | some f => (true, { c with m_comHeightScalingFactor := f })
  else (true, c)

/-- The function `RetargetingClient::initialize`: the flag returned and the member variables
it leaves behind. -/
def RetargetingClient.initialize (config : Searchable) (name : String) (period : ℚ)
    (controlledJointNames : List String) (c : RetargetingClient) : Outcome :=
  if config.isNull then
    (true, { c with m_useHandRetargeting := false, m_useVirtualizer := false,
                    m_useJointRetargeting := false, m_useCoMHeightRetargeting := false })
  else
    let c := { c with m_useHandRetargeting := config.use_hand_retargeting.getD false,
                      m_useJointRetargeting := config.use_joint_retargeting.getD false,
                      m_useVirtualizer := config.use_virtualizer.getD false,
                      m_useCoMHeightRetargeting := config.use_com_retargeting.getD false }
    if c.m_useJointRetargeting && c.m_useHandRetargeting then (false, c)
    else
      let c := { c with m_jointRetargeting :=
        { c.m_jointRetargeting with
            data := resizeVector c.m_jointRetargeting.data controlledJointNames.length,
            yarpReadBuffer :=
              resizeVector c.m_jointRetargeting.yarpReadBuffer controlledJointNames.length } }
      if !c.m_useHandRetargeting && !c.m_useVirtualizer &&
          !c.m_useJointRetargeting && !c.m_useCoMHeightRetargeting then (true, c)
      else
        match config.approaching_phase_duration with
        | none => (false, c)
        | some d =>
          Outcome.andThen (Outcome.andThen (Outcome.andThen
            (initializeHands config name period { c with m_approachPhaseDuration := d })
            (initializeJoints config name period controlledJointNames))
            (initializeVirtualizer config name))
            (initializeCoMHeight config name period)

/-- The member variables right after construction: the phase is `approacing` (the default
member initializer), the vectors are empty, the smoothers null and the ports closed. The
scalar members have no initializer; their values are those of `junk`. -/
def freshClient (junk : RetargetingClient) : RetargetingClient :=
  { junk with
      m_leftHand := { junk.m_leftHand with yarpReadBuffer := [], smoother := none, port := none }
      m_rightHand := { junk.m_rightHand with yarpReadBuffer := [], smoother := none, port := none }
      m_comHeight := { junk.m_comHeight with yarpReadBuffer := [], smoother := none, port := none }
      m_jointRetargeting := { junk.m_jointRetargeting with
                                yarpReadBuffer := [], smoother := none, port := none, data := [] }
      m_retargetJointsIndex := []
      m_robotOrientationPort := none
      m_phase := Phase.approacing }

/-- Modelled from the spec: the kinematic accessor `WalkingFK`, which is not part of these
sources, through the values `reset` takes from it: the hand transforms relative to the head,
the joint positions and the position of the CoM. -/
structure WalkingFK where
  headToLeftHand : Transform
  headToRightHand : Transform
  jointPos : List ℚ
  comPosition : ℚ × ℚ × ℚ
  deriving DecidableEq, Repr

/-- The lambda `resetHandSmoother` of `reset`: the position goes to the segment 0..2 of the raw
buffer, the roll-pitch-yaw angles to the segment 3..5, and the smoother starts from the buffer.
A buffer without the six entries, or a null smoother: `none`. -/
def resetHandSmoother (hand : RetargetingElement Transform) :
    Option (RetargetingElement Transform) := do
  let b ← vectorWrite hand.yarpReadBuffer 0 hand.data.position.1
  let b ← vectorWrite b 1 hand.data.position.2.1
  let b ← vectorWrite b 2 hand.data.position.2.2
  let b ← vectorWrite b 3 hand.data.rpy.1
  let b ← vectorWrite b 4 hand.data.rpy.2.1
  let b ← vectorWrite b 5 hand.data.rpy.2.2
  let g ← hand.smoother
  pure { hand with yarpReadBuffer := b, smoother := some (g.init b) }

/-- The `do ... while (attempt < 100)` loop of `reset`. `port k` is the result of the read
number `k` of the CoM-height port, `attempt` the value of the counter on entry of the body,
and the first argument the number of times the condition `attempt < 100` can still hold.
Every iteration reads the port once: `okCoMHeight` is false on entry, and a sample makes
the function return true. The result is the flag returned, the state, and the number of reads
made. A sample without entry 2: `none`. -/
def resetCoMHeightLoop (port : Nat → Option (List ℚ)) :
    Nat → Nat → RetargetingClient → Option (Bool × RetargetingClient × Nat)
  | more, attempt, c =>
    match port attempt with
    | some desiredCoMHeight =>
      (vectorAt desiredCoMHeight 2).map
        (fun z => (true, { c with m_comHeightInputOffset := z }, attempt + 1))
    | none =>
      match more with
      | 0 => some (false, c, attempt + 1)
      | more + 1 => resetCoMHeightLoop port more (attempt + 1) c

/-- The function `RetargetingClient::reset`: the flag returned, the member variables it
leaves behind and the number of reads of the CoM-height port it has made. The assignment
of the joint positions to the raw buffer goes through Eigen maps, which have to agree
in size. -/
def reset (kinDynWrapper : WalkingFK) (port : Nat → Option (List ℚ)) (c : RetargetingClient) :
    Option (Bool × RetargetingClient × Nat) := do
  let c := { c with m_leftHand := { c.m_leftHand with data := kinDynWrapper.headToLeftHand },
                    m_rightHand := { c.m_rightHand with data := kinDynWrapper.headToRightHand } }
  let c ← (if c.m_useHandRetargeting then do
      let l ← resetHandSmoother c.m_leftHand
      let r ← resetHandSmoother c.m_rightHand
      pure { c with m_leftHand := l, m_rightHand := r }
    else pure c)
  let c ← (if c.m_jointRetargeting.yarpReadBuffer.length = kinDynWrapper.jointPos.length then
      pure { c with m_jointRetargeting :=
        { c.m_jointRetargeting with data := kinDynWrapper.jointPos,
                                    yarpReadBuffer := kinDynWrapper.jointPos } }
    else none)
  let c ← (if c.m_useJointRetargeting then do
      let g ← c.m_jointRetargeting.smoother
      pure { c with m_jointRetargeting :=
        { c.m_jointRetargeting with
            smoother := some (g.init c.m_jointRetargeting.yarpReadBuffer) } }
    else pure c)
  let c := { c with m_comConstantHeight := kinDynWrapper.comPosition.2.2,
                    m_comHeight := { c.m_comHeight with data :=
                      { position := kinDynWrapper.comPosition.2.2, velocity := 0 } } }
  if c.m_useCoMHeightRetargeting then do
    let b ← vectorWrite c.m_comHeight.yarpReadBuffer 0 c.m_comHeight.data.position
    let g ← c.m_comHeight.smoother
    let c := { c with m_comHeight :=
      { c.m_comHeight with yarpReadBuffer := b, smoother := some (g.init b) } }
    resetCoMHeightLoop port 99 0 c
  else pure (true, c, 0)

/-! ## Vocabulary of the statements -/

/-- Every enabled channel owns a smoother (no null `unique_ptr` behind an enabled flag). -/
def SmoothersReady (c : RetargetingClient) : Prop :=
  (c.m_useHandRetargeting = true →
    c.m_leftHand.smoother.isSome = true ∧ c.m_rightHand.smoother.isSome = true) ∧
  (c.m_useJointRetargeting = true → c.m_jointRetargeting.smoother.isSome = true) ∧
  (c.m_useCoMHeightRetargeting = true → c.m_comHeight.smoother.isSome = true)

instance (c : RetargetingClient) : Decidable (SmoothersReady c) := by
  unfold SmoothersReady; infer_instance

/-- The time constant the smoother of a channel runs with. -/
def RetargetingElement.timeConstant {Data : Type} (e : RetargetingElement Data) : Option ℚ :=
  e.smoother.map (fun g => g.T)

/-- Channel `e2` is channel `e1` after exactly one `setT(t)` on its smoother and nothing else. -/
def RetunedOnce {Data : Type} (t : ℚ) (e1 e2 : RetargetingElement Data) : Prop :=
  ∃ g, e1.smoother = some g ∧
    e2 = { e1 with smoother := some { g with T := t, setTCalls := g.setTCalls + 1 } }

/-- Every enabled channel of `c2` is the channel of `c1` retuned once to its walking
constant; a disabled channel is the same in both. -/
def AllRetunedWalking (c1 c2 : RetargetingClient) : Prop :=
  (if c1.m_useHandRetargeting then
      RetunedOnce c1.m_leftHand.smoothingTimeInWalking c1.m_leftHand c2.m_leftHand ∧
      RetunedOnce c1.m_rightHand.smoothingTimeInWalking c1.m_rightHand c2.m_rightHand
    else c2.m_leftHand = c1.m_leftHand ∧ c2.m_rightHand = c1.m_rightHand) ∧
  (if c1.m_useJointRetargeting then
      RetunedOnce c1.m_jointRetargeting.smoothingTimeInWalking
        c1.m_jointRetargeting c2.m_jointRetargeting
    else c2.m_jointRetargeting = c1.m_jointRetargeting) ∧
  (if c1.m_useCoMHeightRetargeting then
      RetunedOnce c1.m_comHeight.smoothingTimeInWalking c1.m_comHeight c2.m_comHeight
    else c2.m_comHeight = c1.m_comHeight)

/-- Every enabled channel of `c2` is the channel of `c1` retuned once to its approach
constant; a disabled channel is the same in both. -/
def AllRetunedApproaching (c1 c2 : RetargetingClient) : Prop :=
  (if c1.m_useHandRetargeting then
      RetunedOnce c1.m_leftHand.smoothingTimeInApproaching c1.m_leftHand c2.m_leftHand ∧
      RetunedOnce c1.m_rightHand.smoothingTimeInApproaching c1.m_rightHand c2.m_rightHand
    else c2.m_leftHand = c1.m_leftHand ∧ c2.m_rightHand = c1.m_rightHand) ∧
  (if c1.m_useJointRetargeting then
      RetunedOnce c1.m_jointRetargeting.smoothingTimeInApproaching
        c1.m_jointRetargeting c2.m_jointRetargeting
    else c2.m_jointRetargeting = c1.m_jointRetargeting) ∧
  (if c1.m_useCoMHeightRetargeting then
      RetunedOnce c1.m_comHeight.smoothingTimeInApproaching c1.m_comHeight c2.m_comHeight
    else c2.m_comHeight = c1.m_comHeight)

/-- Every enabled channel runs with its walking time constant. -/
def TimeConstantsWalking (c : RetargetingClient) : Prop :=
  (c.m_useHandRetargeting = true →
    c.m_leftHand.timeConstant = some c.m_leftHand.smoothingTimeInWalking ∧
    c.m_rightHand.timeConstant = some c.m_rightHand.smoothingTimeInWalking) ∧
  (c.m_useJointRetargeting = true →
    c.m_jointRetargeting.timeConstant = some c.m_jointRetargeting.smoothingTimeInWalking) ∧
  (c.m_useCoMHeightRetargeting = true →
    c.m_comHeight.timeConstant = some c.m_comHeight.smoothingTimeInWalking)

/-- Every enabled channel runs with its approach time constant. -/
def TimeConstantsApproaching (c : RetargetingClient) : Prop :=
  (c.m_useHandRetargeting = true →
    c.m_leftHand.timeConstant = some c.m_leftHand.smoothingTimeInApproaching ∧
    c.m_rightHand.timeConstant = some c.m_rightHand.smoothingTimeInApproaching) ∧
  (c.m_useJointRetargeting = true →
    c.m_jointRetargeting.timeConstant = some c.m_jointRetargeting.smoothingTimeInApproaching) ∧
  (c.m_useCoMHeightRetargeting = true →
    c.m_comHeight.timeConstant = some c.m_comHeight.smoothingTimeInApproaching)

/-- The time constants of the four smoothers, enabled or not. -/
def RetargetingClient.timeConstants (c : RetargetingClient) : List (Option ℚ) :=
  [c.m_leftHand.timeConstant, c.m_rightHand.timeConstant,
   c.m_jointRetargeting.timeConstant, c.m_comHeight.timeConstant]

/-- At least one of hand, joint and CoM-height retargeting is enabled. -/
def RetargetingClient.anyChannel (c : RetargetingClient) : Bool :=
  c.m_useHandRetargeting || c.m_useJointRetargeting || c.m_useCoMHeightRetargeting

/-- The channel without the history variable `setTCalls`. -/
def RetargetingElement.forgetCalls {Data : Type} (e : RetargetingElement Data) :
    RetargetingElement Data :=
  { e with smoother := e.smoother.map (fun g => { g with setTCalls := 0 }) }

/-- The client without the history variables: the member variables proper. -/
def RetargetingClient.forgetCalls (c : RetargetingClient) : RetargetingClient :=
  { c with m_leftHand := c.m_leftHand.forgetCalls, m_rightHand := c.m_rightHand.forgetCalls,
           m_jointRetargeting := c.m_jointRetargeting.forgetCalls,
           m_comHeight := c.m_comHeight.forgetCalls }

/-- The filter returns a position and a velocity of the dimension of its target. -/
def LawSized (law : FilterLaw) : Prop :=
  ∀ g y, (law g y).1.length = y.length ∧ (law g y).2.length = y.length

/-- The hand block of a tick is defined: both hands own a smoother, and the pose the smoother
is given (the sample read, or else the buffer held) has its six entries. -/
def HandsOK (reads : PortReads) (c : RetargetingClient) : Prop :=
  c.m_useHandRetargeting = true →
    c.m_leftHand.smoother.isSome = true ∧ c.m_rightHand.smoother.isSome = true ∧
    6 ≤ (reads.leftHand.getD c.m_leftHand.yarpReadBuffer).length ∧
    6 ≤ (reads.rightHand.getD c.m_rightHand.yarpReadBuffer).length

/-- The joint block of a tick is defined: the channel owns a smoother, the buffer has the size
of `data`, and a sample read is no longer than the index vector and meets only indices
inside the buffer. -/
def JointsOK (reads : PortReads) (c : RetargetingClient) : Prop :=
  c.m_useJointRetargeting = true →
    c.m_jointRetargeting.smoother.isSome = true ∧
    c.m_jointRetargeting.yarpReadBuffer.length = c.m_jointRetargeting.data.length ∧
    ∀ u ∈ reads.joint, u.length ≤ c.m_retargetJointsIndex.length ∧
      ∀ k ∈ c.m_retargetJointsIndex.take u.length, k < c.m_jointRetargeting.yarpReadBuffer.length

/-- The CoM-height block of a tick is defined: the channel owns a smoother, the buffer has a
slot 0, and a sample read outside the walking phase has an entry 2. -/
def CoMHeightOK (reads : PortReads) (c : RetargetingClient) : Prop :=
  c.m_useCoMHeightRetargeting = true →
    c.m_comHeight.smoother.isSome = true ∧ 0 < c.m_comHeight.yarpReadBuffer.length ∧
    (c.m_phase ≠ Phase.walking → ∀ d ∈ reads.comHeight, 2 < d.length)

/-- The tick is defined: no null smoother and no access outside a vector. -/
def TickOK (reads : PortReads) (c : RetargetingClient) : Prop :=
  HandsOK reads c ∧ JointsOK reads c ∧ CoMHeightOK reads c

/-- Channel `e2` has the tuning of channel `e1`: the same time constant in the smoother, the
same number of `setT` calls received, the same configured constants and port. -/
def SameTuning {Data : Type} (e1 e2 : RetargetingElement Data) : Prop :=
  e2.smoother.map (fun g => (g.T, g.setTCalls)) = e1.smoother.map (fun g => (g.T, g.setTCalls)) ∧
  e2.smoothingTimeInApproaching = e1.smoothingTimeInApproaching ∧
  e2.smoothingTimeInWalking = e1.smoothingTimeInWalking ∧
  e2.port = e1.port

/-- Channel `e2` is channel `e1` but for the smoother. -/
def SameButSmoother {Data : Type} (e1 e2 : RetargetingElement Data) : Prop :=
  e2 = { e1 with smoother := e2.smoother }

/-- The clients `c` and `c2` have the same settings: the enable flags, the two configured
time constants of each channel, the approach duration, the CoM-height constants and the
joint index vector. -/
def SameSettings (c c2 : RetargetingClient) : Prop :=
  (c2.m_useHandRetargeting = c.m_useHandRetargeting ∧
    c2.m_useVirtualizer = c.m_useVirtualizer ∧
    c2.m_useJointRetargeting = c.m_useJointRetargeting ∧
    c2.m_useCoMHeightRetargeting = c.m_useCoMHeightRetargeting) ∧
  (c2.m_leftHand.smoothingTimeInApproaching = c.m_leftHand.smoothingTimeInApproaching ∧
    c2.m_leftHand.smoothingTimeInWalking = c.m_leftHand.smoothingTimeInWalking ∧
    c2.m_rightHand.smoothingTimeInApproaching = c.m_rightHand.smoothingTimeInApproaching ∧
    c2.m_rightHand.smoothingTimeInWalking = c.m_rightHand.smoothingTimeInWalking ∧
    c2.m_jointRetargeting.smoothingTimeInApproaching
      = c.m_jointRetargeting.smoothingTimeInApproaching ∧
    c2.m_jointRetargeting.smoothingTimeInWalking = c.m_jointRetargeting.smoothingTimeInWalking ∧
    c2.m_comHeight.smoothingTimeInApproaching = c.m_comHeight.smoothingTimeInApproaching ∧
    c2.m_comHeight.smoothingTimeInWalking = c.m_comHeight.smoothingTimeInWalking) ∧
  (c2.m_approachPhaseDuration = c.m_approachPhaseDuration ∧
    c2.m_comHeightInputOffset = c.m_comHeightInputOffset ∧
    c2.m_comConstantHeight = c.m_comConstantHeight ∧
    c2.m_comHeightScalingFactor = c.m_comHeightScalingFactor ∧
    c2.m_retargetJointsIndex = c.m_retargetJointsIndex)

/-- The call of `reset` is defined: with hand retargeting the raw buffers of the hands have
their six entries and the hands own a smoother; the raw buffer of the joints has the size of
the joint positions; with joint retargeting the channel owns a smoother; with CoM-height
retargeting the raw buffer has a slot 0, the channel owns a smoother, and a sample among
the first 100 reads has an entry 2. -/
def ResetOK (kinDynWrapper : WalkingFK) (port : Nat → Option (List ℚ))
    (c : RetargetingClient) : Prop :=
  (c.m_useHandRetargeting = true →
    6 ≤ c.m_leftHand.yarpReadBuffer.length ∧ 6 ≤ c.m_rightHand.yarpReadBuffer.length ∧
    c.m_leftHand.smoother.isSome = true ∧ c.m_rightHand.smoother.isSome = true) ∧
  c.m_jointRetargeting.yarpReadBuffer.length = kinDynWrapper.jointPos.length ∧
  (c.m_useJointRetargeting = true → c.m_jointRetargeting.smoother.isSome = true) ∧
  (c.m_useCoMHeightRetargeting = true →
    0 < c.m_comHeight.yarpReadBuffer.length ∧ c.m_comHeight.smoother.isSome = true ∧
    ∀ k, k < 100 → ∀ v ∈ port k, 2 < v.length)

/-- Every tick of the sequence is defined in the state it starts from. -/
def TicksOK (ar : DoubleArithmetic) (law : FilterLaw) :
    List (PortReads × ℚ) → RetargetingClient → Prop
  | [], _ => True
  | (reads, now) :: rest, c =>
    TickOK reads c ∧ ∀ c2, getFeedback ar law reads now c = some c2 → TicksOK ar law rest c2

/-- Channel `e` is set up from the configured values `a` and `w`: both are present, they are
the two time constants of the channel, and the smoother of the channel exists and runs with
the approach constant. -/
def Configured {Data : Type} (a w : Option ℚ) (e : RetargetingElement Data) : Prop :=
  a = some e.smoothingTimeInApproaching ∧ w = some e.smoothingTimeInWalking ∧
  e.timeConstant = some e.smoothingTimeInApproaching

/-- Every enabled channel of `c` is set up from the values of its group in `config`. -/
def Started (config : Searchable) (c : RetargetingClient) : Prop :=
  (c.m_useHandRetargeting = true →
    Configured config.HAND_RETARGETING.smoothing_time_approaching
      config.HAND_RETARGETING.smoothing_time_walking c.m_leftHand ∧
    Configured config.HAND_RETARGETING.smoothing_time_approaching
      config.HAND_RETARGETING.smoothing_time_walking c.m_rightHand) ∧
  (c.m_useJointRetargeting = true →
    Configured config.JOINT_RETARGETING.smoothing_time_approaching
      config.JOINT_RETARGETING.smoothing_time_walking c.m_jointRetargeting) ∧
  (c.m_useCoMHeightRetargeting = true →
    Configured config.COM_RETARGETING.smoothing_time_approaching
      config.COM_RETARGETING.smoothing_time_walking c.m_comHeight)

/-- The phase and the time constants agree: the enabled channels own their smoothers; in
the phase `approacing` they run with their approach constants, in the phases `stance` and
`walking` with their walking constants. -/
def PhaseConsistent (c : RetargetingClient) : Prop :=
  SmoothersReady c ∧
  (c.m_phase = Phase.approacing → TimeConstantsApproaching c) ∧
  (c.m_phase = Phase.stance ∨ c.m_phase = Phase.walking → TimeConstantsWalking c)

/-- A filter law for the sample runs: the output jumps to the target, at zero velocity. -/
def jumpLaw : FilterLaw := fun _ y => (y, List.replicate y.length 0)

/-! ## Sample states -/

/-- A channel with a smoother of the given dimension and time constant. -/
def sampleElement {Data : Type} (d : Data) (dim : Nat) (T Ta Tw : ℚ) : RetargetingElement Data :=
  { yarpReadBuffer := List.replicate dim 0
    smoother := some { Ts := 1/100, T := T, pos := List.replicate dim 0,
                       vel := List.replicate dim 0, setTCalls := 0 }
    port := some "/walking/port"
    smoothingTimeInApproaching := Ta
    smoothingTimeInWalking := Tw
    data := d }

/-- A channel that was never set up. -/
def bareElement {Data : Type} (d : Data) : RetargetingElement Data :=
  { yarpReadBuffer := [], smoother := none, port := none,
    smoothingTimeInApproaching := 0, smoothingTimeInWalking := 0, data := d }

/-- A client with CoM-height retargeting only, in the given phase: approach constant 2,
walking constant 1/2, approach started at time 10 and lasting 5. -/
def comClient (p : Phase) : RetargetingClient :=
  { m_useHandRetargeting := false
    m_useVirtualizer := false
    m_useJointRetargeting := false
    m_useCoMHeightRetargeting := true
    m_leftHand := bareElement ⟨(0, 0, 0), (0, 0, 0)⟩
    m_rightHand := bareElement ⟨(0, 0, 0), (0, 0, 0)⟩
    m_comHeightInputOffset := 1/10
    m_comConstantHeight := 1/2
    m_comHeightScalingFactor := 2
    m_comHeight := sampleElement ⟨1/2, 0⟩ 1 2 2 (1/2)
    m_retargetJointsIndex := []
    m_jointRetargeting := bareElement []
    m_robotOrientationPort := none
    m_phase := p
    m_startingApproachingPhaseTime := 10
    m_approachPhaseDuration := 5 }

/-- The client `comClient` with the input offset 1/4. Its constants 1/4, 1/2, 2, 10 and 5
are doubles, and so are the results of the operations the sample ticks perform on them, so
that these operations do not round. -/
def binaryClient (p : Phase) : RetargetingClient :=
  { comClient p with m_comHeightInputOffset := 1/4 }

/-- The CoM-height client in the walking phase, its smoother running with the walking
constant 1/2: the state `setPhase walking` leaves behind. -/
def comClientWalking : RetargetingClient :=
  { comClient Phase.walking with m_comHeight := sampleElement ⟨1/2, 0⟩ 1 (1/2) 2 (1/2) }

/-- The reads of a tick in which only the CoM-height port delivers a sample, of height `z`. -/
def comReads (z : ℚ) : PortReads :=
  { leftHand := none, rightHand := none, joint := none, comHeight := some [0, 0, z] }

/-- A client with joint retargeting only, in the given phase: three controlled joints, of
which the third and the first are retargeted, in this order. -/
def jointClient (p : Phase) : RetargetingClient :=
  { m_useHandRetargeting := false
    m_useVirtualizer := false
    m_useJointRetargeting := true
    m_useCoMHeightRetargeting := false
    m_leftHand := bareElement ⟨(0, 0, 0), (0, 0, 0)⟩
    m_rightHand := bareElement ⟨(0, 0, 0), (0, 0, 0)⟩
    m_comHeightInputOffset := 0
    m_comConstantHeight := 0
    m_comHeightScalingFactor := 0
    m_comHeight := bareElement ⟨0, 0⟩
    m_retargetJointsIndex := [2, 0]
    m_jointRetargeting := { sampleElement [1, 2, 3] 3 2 2 (1/2) with yarpReadBuffer := [1, 2, 3] }
    m_robotOrientationPort := none
    m_phase := p
    m_startingApproachingPhaseTime := 10
    m_approachPhaseDuration := 5 }

/-- The reads of a tick in which only the joint port delivers a sample. -/
def jointReads (u : List ℚ) : PortReads :=
  { leftHand := none, rightHand := none, joint := some u, comHeight := none }

/-- The reads of a tick in which no port delivers a sample. -/
def noReads : PortReads :=
  { leftHand := none, rightHand := none, joint := none, comHeight := none }

/-- A client right after construction, its scalar members read as zero and false. -/
def newClient : RetargetingClient :=
  freshClient
    { m_useHandRetargeting := false
      m_useVirtualizer := false
      m_useJointRetargeting := false
      m_useCoMHeightRetargeting := false
      m_leftHand := bareElement ⟨(0, 0, 0), (0, 0, 0)⟩
      m_rightHand := bareElement ⟨(0, 0, 0), (0, 0, 0)⟩
      m_comHeightInputOffset := 0
      m_comConstantHeight := 0
      m_comHeightScalingFactor := 0
      m_comHeight := bareElement ⟨0, 0⟩
      m_retargetJointsIndex := []
      m_jointRetargeting := bareElement []
      m_robotOrientationPort := none
      m_phase := Phase.stance
      m_startingApproachingPhaseTime := 0
      m_approachPhaseDuration := 0 }

/-- A configuration with every flag absent and every group empty. -/
def emptyConfig : Searchable :=
  { isNull := false
    use_hand_retargeting := none
    use_joint_retargeting := none
    use_virtualizer := none
    use_com_retargeting := none
    approaching_phase_duration := none
    HAND_RETARGETING := ⟨none, none, none, none⟩
    JOINT_RETARGETING := ⟨none, none, none, none⟩
    VIRTUALIZER := ⟨none⟩
    COM_RETARGETING := ⟨none, none, none, none⟩ }

/-- The null configuration. -/
def nullConfig : Searchable := { emptyConfig with isNull := true }

/-- A complete configuration of joint retargeting alone, for the given list of joints. -/
def jointConfig (retargetJointNames : List String) : Searchable :=
  { emptyConfig with
      use_joint_retargeting := some true
      approaching_phase_duration := some 5
      JOINT_RETARGETING := ⟨some (some retargetJointNames), some "/jointPosition:i",
                            some 2, some (1/2)⟩ }

/-- A complete configuration that asks for hand and joint retargeting together. -/
def handAndJointConfig : Searchable :=
  { jointConfig ["neck_roll"] with
      use_hand_retargeting := some true
      HAND_RETARGETING := ⟨some "/leftHand:i", some "/rightHand:i", some 2, some (1/2)⟩ }

/-- A robot state for the sample runs: the CoM at height 1/2. -/
def sampleFK : WalkingFK :=
  { headToLeftHand := ⟨(0, 0, 0), (0, 0, 0)⟩
    headToRightHand := ⟨(0, 0, 0), (0, 0, 0)⟩
    jointPos := []
    comPosition := (0, 0, 1/2) }

/-- A CoM-height port that delivers its first sample, of height `z`, at the read number `n`. -/
def portFrom (n : Nat) (z : ℚ) : Nat → Option (List ℚ) :=
  fun k => if k < n then none else some [0, 0, z]

/-- A CoM-height port that never delivers a sample. -/
def silentPort : Nat → Option (List ℚ) := fun _ => none

/-- A complete configuration of CoM-height retargeting alone, with the given smoothing times
for the approach and for walking. -/
def comConfig (a w : ℚ) : Searchable :=
  { emptyConfig with
      use_com_retargeting := some true
      approaching_phase_duration := some 5
      COM_RETARGETING := ⟨some "/comHeight:i", some a, some w, some 2⟩ }

/-- The configuration `comConfig 2 (1/2)` without the key `smoothing_time_walking`. -/
def comConfigNoWalking : Searchable :=
  { comConfig 2 (1/2) with COM_RETARGETING := ⟨some "/comHeight:i", some 2, none, some 2⟩ }

/-- A run of calls for the CoM-height client: walking is requested at time 1 and a tick
follows at time 2; the approach phase is requested again at time 3, and of the ticks at the
times 4 and 9 the second comes after the approach duration of 5. -/
def sampleCalls : List Call :=
  [Call.setPhase Phase.walking 1, Call.getFeedback (comReads (3/4)) 2,
   Call.setPhase Phase.approacing 3, Call.getFeedback (comReads (3/4)) 4,
   Call.getFeedback (comReads (3/4)) 9]

/-! ## Lemmas on the phase machine -/

theorem smoothersReady_split {c : RetargetingClient} (h : SmoothersReady c) :
    (c.m_useHandRetargeting = false ∨ ∃ gl gr, c.m_useHandRetargeting = true ∧
        c.m_leftHand.smoother = some gl ∧ c.m_rightHand.smoother = some gr) ∧
    (c.m_useJointRetargeting = false ∨ ∃ gj, c.m_useJointRetargeting = true ∧
        c.m_jointRetargeting.smoother = some gj) ∧
    (c.m_useCoMHeightRetargeting = false ∨ ∃ gc, c.m_useCoMHeightRetargeting = true ∧
        c.m_comHeight.smoother = some gc) := by
  obtain ⟨hh, hj, hc⟩ := h
  refine ⟨?_, ?_, ?_⟩
  · cases hu : c.m_useHandRetargeting
    · exact Or.inl rfl
    · obtain ⟨gl, hgl⟩ := Option.isSome_iff_exists.1 (hh hu).1
      obtain ⟨gr, hgr⟩ := Option.isSome_iff_exists.1 (hh hu).2
      exact Or.inr ⟨gl, gr, rfl, hgl, hgr⟩
  · cases hu : c.m_useJointRetargeting
    · exact Or.inl rfl
    · obtain ⟨gj, hgj⟩ := Option.isSome_iff_exists.1 (hj hu)
      exact Or.inr ⟨gj, rfl, hgj⟩
  · cases hu : c.m_useCoMHeightRetargeting
    · exact Or.inl rfl
    · obtain ⟨gc, hgc⟩ := Option.isSome_iff_exists.1 (hc hu)
      exact Or.inr ⟨gc, rfl, hgc⟩

theorem stopApproachingPhase_spec (c : RetargetingClient) (h : SmoothersReady c) :
    ∃ c2, stopApproachingPhase c = some c2 ∧ AllRetunedWalking c c2 ∧
      c2 = { c with m_leftHand := c2.m_leftHand, m_rightHand := c2.m_rightHand,
                    m_jointRetargeting := c2.m_jointRetargeting, m_comHeight := c2.m_comHeight,
                    m_phase := Phase.stance } := by
  obtain ⟨hh, hj, hc⟩ := smoothersReady_split h
  rcases hh with hh | ⟨gl, gr, hh, hgl, hgr⟩ <;> rcases hj with hj | ⟨gj, hj, hgj⟩ <;>
    rcases hc with hc | ⟨gc, hc, hgc⟩ <;>
    simp [stopApproachingPhase, AllRetunedWalking, RetunedOnce, RetargetingElement.smootherSetT,
      minJerkTrajGen.setT, *]

theorem startApproachingPhase_spec (now : ℚ) (c : RetargetingClient) (h : SmoothersReady c) :
    ∃ c2, startApproachingPhase now c = some c2 ∧ AllRetunedApproaching c c2 ∧
      c2 = { c with m_leftHand := c2.m_leftHand, m_rightHand := c2.m_rightHand,
                    m_jointRetargeting := c2.m_jointRetargeting, m_comHeight := c2.m_comHeight,
                    m_startingApproachingPhaseTime :=
                      if c.anyChannel then now else c.m_startingApproachingPhaseTime } := by
  obtain ⟨hh, hj, hc⟩ := smoothersReady_split h
  rcases hh with hh | ⟨gl, gr, hh, hgl, hgr⟩ <;> rcases hj with hj | ⟨gj, hj, hgj⟩ <;>
    rcases hc with hc | ⟨gc, hc, hgc⟩ <;>
    simp [startApproachingPhase, AllRetunedApproaching, RetunedOnce,
      RetargetingElement.smootherSetT, minJerkTrajGen.setT, RetargetingClient.anyChannel, *]
  cases c
  simp_all

theorem allRetunedWalking_timeConstants {c c2 : RetargetingClient} (h : AllRetunedWalking c c2)
    (hf : c2.m_useHandRetargeting = c.m_useHandRetargeting ∧
      c2.m_useJointRetargeting = c.m_useJointRetargeting ∧
      c2.m_useCoMHeightRetargeting = c.m_useCoMHeightRetargeting) :
    TimeConstantsWalking c2 := by
  obtain ⟨h1, h2, h3⟩ := h
  obtain ⟨f1, f2, f3⟩ := hf
  refine ⟨fun hu => ?_, fun hu => ?_, fun hu => ?_⟩
  · rw [f1] at hu
    simp only [hu, if_true] at h1
    obtain ⟨⟨g, _, e1⟩, ⟨g2, _, e2⟩⟩ := h1
    rw [e1, e2]; simp [RetargetingElement.timeConstant]
  · rw [f2] at hu
    simp only [hu, if_true] at h2
    obtain ⟨g, _, e1⟩ := h2
    rw [e1]; simp [RetargetingElement.timeConstant]
  · rw [f3] at hu
    simp only [hu, if_true] at h3
    obtain ⟨g, _, e1⟩ := h3
    rw [e1]; simp [RetargetingElement.timeConstant]

theorem allRetunedApproaching_timeConstants {c c2 : RetargetingClient}
    (h : AllRetunedApproaching c c2)
    (hf : c2.m_useHandRetargeting = c.m_useHandRetargeting ∧
      c2.m_useJointRetargeting = c.m_useJointRetargeting ∧
      c2.m_useCoMHeightRetargeting = c.m_useCoMHeightRetargeting) :
    TimeConstantsApproaching c2 := by
  obtain ⟨h1, h2, h3⟩ := h
  obtain ⟨f1, f2, f3⟩ := hf
  refine ⟨fun hu => ?_, fun hu => ?_, fun hu => ?_⟩
  · rw [f1] at hu
    simp only [hu, if_true] at h1
    obtain ⟨⟨g, _, e1⟩, ⟨g2, _, e2⟩⟩ := h1
    rw [e1, e2]; simp [RetargetingElement.timeConstant]
  · rw [f2] at hu
    simp only [hu, if_true] at h2
    obtain ⟨g, _, e1⟩ := h2
    rw [e1]; simp [RetargetingElement.timeConstant]
  · rw [f3] at hu
    simp only [hu, if_true] at h3
    obtain ⟨g, _, e1⟩ := h3
    rw [e1]; simp [RetargetingElement.timeConstant]

theorem retunedOnce_sameButSmoother {Data : Type} {t : ℚ} {e1 e2 : RetargetingElement Data}
    (h : RetunedOnce t e1 e2) : SameButSmoother e1 e2 := by
  obtain ⟨g, _, e⟩ := h
  rw [e]; rfl

theorem sameButSmoother_of_eq {Data : Type} {e1 e2 : RetargetingElement Data} (h : e2 = e1) :
    SameButSmoother e1 e2 := by
  rw [h]; rfl

theorem allRetunedWalking_sameButSmoother {c c2 : RetargetingClient}
    (h : AllRetunedWalking c c2) :
    SameButSmoother c.m_leftHand c2.m_leftHand ∧ SameButSmoother c.m_rightHand c2.m_rightHand ∧
    SameButSmoother c.m_jointRetargeting c2.m_jointRetargeting ∧
    SameButSmoother c.m_comHeight c2.m_comHeight := by
  obtain ⟨h1, h2, h3⟩ := h
  refine ⟨?_, ?_, ?_, ?_⟩
  · split at h1
    · exact retunedOnce_sameButSmoother h1.1
    · exact sameButSmoother_of_eq h1.1
  · split at h1
    · exact retunedOnce_sameButSmoother h1.2
    · exact sameButSmoother_of_eq h1.2
  · split at h2
    · exact retunedOnce_sameButSmoother h2
    · exact sameButSmoother_of_eq h2
  · split at h3
    · exact retunedOnce_sameButSmoother h3
    · exact sameButSmoother_of_eq h3

theorem allRetunedApproaching_sameButSmoother {c c2 : RetargetingClient}
    (h : AllRetunedApproaching c c2) :
    SameButSmoother c.m_leftHand c2.m_leftHand ∧ SameButSmoother c.m_rightHand c2.m_rightHand ∧
    SameButSmoother c.m_jointRetargeting c2.m_jointRetargeting ∧
    SameButSmoother c.m_comHeight c2.m_comHeight := by
  obtain ⟨h1, h2, h3⟩ := h
  refine ⟨?_, ?_, ?_, ?_⟩
  · split at h1
    · exact retunedOnce_sameButSmoother h1.1
    · exact sameButSmoother_of_eq h1.1
  · split at h1
    · exact retunedOnce_sameButSmoother h1.2
    · exact sameButSmoother_of_eq h1.2
  · split at h2
    · exact retunedOnce_sameButSmoother h2
    · exact sameButSmoother_of_eq h2
  · split at h3
    · exact retunedOnce_sameButSmoother h3
    · exact sameButSmoother_of_eq h3

theorem sameSettings_of_channels {c c2 : RetargetingClient}
    {l r : RetargetingElement Transform} {j : RetargetingElement (List ℚ)}
    {e : RetargetingElement KinematicState} {p : Phase} {t : ℚ}
    (hl : l.smoothingTimeInApproaching = c.m_leftHand.smoothingTimeInApproaching ∧
      l.smoothingTimeInWalking = c.m_leftHand.smoothingTimeInWalking)
    (hr : r.smoothingTimeInApproaching = c.m_rightHand.smoothingTimeInApproaching ∧
      r.smoothingTimeInWalking = c.m_rightHand.smoothingTimeInWalking)
    (hj : j.smoothingTimeInApproaching = c.m_jointRetargeting.smoothingTimeInApproaching ∧
      j.smoothingTimeInWalking = c.m_jointRetargeting.smoothingTimeInWalking)
    (he : e.smoothingTimeInApproaching = c.m_comHeight.smoothingTimeInApproaching ∧
      e.smoothingTimeInWalking = c.m_comHeight.smoothingTimeInWalking)
    (h : c2 = { c with m_leftHand := l, m_rightHand := r, m_jointRetargeting := j,
                       m_comHeight := e, m_phase := p, m_startingApproachingPhaseTime := t }) :
    SameSettings c c2 := by
  subst h
  exact ⟨⟨rfl, rfl, rfl, rfl⟩, ⟨hl.1, hl.2, hr.1, hr.2, hj.1, hj.2, he.1, he.2⟩,
    ⟨rfl, rfl, rfl, rfl, rfl⟩⟩

theorem sameButSmoother_times {Data : Type} {e1 e2 : RetargetingElement Data}
    (h : SameButSmoother e1 e2) :
    e2.smoothingTimeInApproaching = e1.smoothingTimeInApproaching ∧
      e2.smoothingTimeInWalking = e1.smoothingTimeInWalking := by
  unfold SameButSmoother at h
  constructor
  · rw [h]
  · rw [h]

theorem sameTuning_times {Data : Type} {e1 e2 : RetargetingElement Data}
    (h : SameTuning e1 e2) :
    e2.smoothingTimeInApproaching = e1.smoothingTimeInApproaching ∧
      e2.smoothingTimeInWalking = e1.smoothingTimeInWalking :=
  ⟨h.2.1, h.2.2.1⟩

theorem retunedOnce_again {Data : Type} {e1 e2 e3 : RetargetingElement Data}
    (h12 : RetunedOnce e1.smoothingTimeInApproaching e1 e2)
    (h23 : RetunedOnce e2.smoothingTimeInApproaching e2 e3) :
    e3.forgetCalls = e2.forgetCalls := by
  obtain ⟨g, hg, e⟩ := h12
  obtain ⟨g2, hg2, e'⟩ := h23
  rw [e] at hg2
  simp only [Option.some.injEq] at hg2
  subst hg2
  rw [e', e]
  simp [RetargetingElement.forgetCalls]

theorem allRetunedApproaching_again {c c2 c3 : RetargetingClient}
    (h12 : AllRetunedApproaching c c2) (h23 : AllRetunedApproaching c2 c3)
    (hf : c2.m_useHandRetargeting = c.m_useHandRetargeting ∧
      c2.m_useJointRetargeting = c.m_useJointRetargeting ∧
      c2.m_useCoMHeightRetargeting = c.m_useCoMHeightRetargeting) :
    c3.m_leftHand.forgetCalls = c2.m_leftHand.forgetCalls ∧
    c3.m_rightHand.forgetCalls = c2.m_rightHand.forgetCalls ∧
    c3.m_jointRetargeting.forgetCalls = c2.m_jointRetargeting.forgetCalls ∧
    c3.m_comHeight.forgetCalls = c2.m_comHeight.forgetCalls := by
  obtain ⟨a1, a2, a3⟩ := h12
  obtain ⟨b1, b2, b3⟩ := h23
  obtain ⟨f1, f2, f3⟩ := hf
  rw [f1] at b1
  rw [f2] at b2
  rw [f3] at b3
  refine ⟨?_, ?_, ?_, ?_⟩
  · by_cases hu : c.m_useHandRetargeting = true
    · rw [if_pos hu] at a1 b1
      exact retunedOnce_again a1.1 b1.1
    · rw [if_neg hu] at a1 b1
      rw [b1.1]
  · by_cases hu : c.m_useHandRetargeting = true
    · rw [if_pos hu] at a1 b1
      exact retunedOnce_again a1.2 b1.2
    · rw [if_neg hu] at a1 b1
      rw [b1.2]
  · by_cases hu : c.m_useJointRetargeting = true
    · rw [if_pos hu] at a2 b2
      exact retunedOnce_again a2 b2
    · rw [if_neg hu] at a2 b2
      rw [b2]
  · by_cases hu : c.m_useCoMHeightRetargeting = true
    · rw [if_pos hu] at a3 b3
      exact retunedOnce_again a3 b3
    · rw [if_neg hu] at a3 b3
      rw [b3]

theorem setPhase_approacing_eq (now : ℚ) (c : RetargetingClient) :
    setPhase Phase.approacing now c =
      (startApproachingPhase now c).map (fun c1 => { c1 with m_phase := Phase.approacing }) := by
  cases h : startApproachingPhase now c <;> simp [setPhase, h]

/-! ## Lemmas on the feedback tick -/

theorem jumpLaw_sized : LawSized jumpLaw := by
  intro g y
  simp [jumpLaw]

theorem vectorAt_of_lt {v : List ℚ} {i : Nat} (h : i < v.length) :
    vectorAt v i = some (v.get ⟨i, h⟩) := by
  simp [vectorAt, List.getElem?_eq_getElem h]

theorem convertYarpVectorPoseIntoTransform_defined {v : List ℚ} (h : 6 ≤ v.length) :
    ∃ t, convertYarpVectorPoseIntoTransform v = some t := by
  have h0 : 0 < v.length := by omega
  have h1 : 1 < v.length := by omega
  have h2 : 2 < v.length := by omega
  have h3 : 3 < v.length := by omega
  have h4 : 4 < v.length := by omega
  have h5 : 5 < v.length := by omega
  simp [convertYarpVectorPoseIntoTransform, vectorAt_of_lt, h0, h1, h2, h3, h4, h5]

theorem sameTuning_refl {Data : Type} (e : RetargetingElement Data) : SameTuning e e :=
  ⟨rfl, rfl, rfl, rfl⟩

theorem sameTuning_timeConstant {Data : Type} {e1 e2 : RetargetingElement Data}
    (h : SameTuning e1 e2) : e2.timeConstant = e1.timeConstant := by
  have h1 := congrArg (Option.map Prod.fst) h.1
  simpa [RetargetingElement.timeConstant, Option.map_map, Function.comp_def] using h1

theorem sameTuning_isSome {Data : Type} {e1 e2 : RetargetingElement Data}
    (h : SameTuning e1 e2) : e2.smoother.isSome = e1.smoother.isSome := by
  have h1 := congrArg Option.isSome h.1
  simpa using h1

theorem getHandFeedback_spec (law : FilterLaw) (hl : LawSized law) (read : Option (List ℚ))
    (hand : RetargetingElement Transform) (hs : hand.smoother.isSome = true)
    (h6 : 6 ≤ (read.getD hand.yarpReadBuffer).length) :
    ∃ h2, getHandFeedback law read hand = some h2 ∧ SameTuning hand h2 ∧
      h2.yarpReadBuffer = read.getD hand.yarpReadBuffer := by
  obtain ⟨g, hg⟩ := Option.isSome_iff_exists.1 hs
  have hlen : 6 ≤ (law g (read.getD hand.yarpReadBuffer)).1.length := by
    rw [(hl g _).1]; exact h6
  obtain ⟨t, ht⟩ := convertYarpVectorPoseIntoTransform_defined hlen
  cases read with
  | none =>
    simp only [Option.getD_none] at ht
    simp [getHandFeedback, hg, minJerkTrajGen.computeNextValues, ht, SameTuning]
  | some v =>
    simp only [Option.getD_some] at ht
    simp [getHandFeedback, hg, minJerkTrajGen.computeNextValues, ht, SameTuning]

theorem getFeedbackHands_spec (law : FilterLaw) (hl : LawSized law) (reads : PortReads)
    (c : RetargetingClient) (h : HandsOK reads c) :
    ∃ l r, getFeedbackHands law reads c = some { c with m_leftHand := l, m_rightHand := r } ∧
      SameTuning c.m_leftHand l ∧ SameTuning c.m_rightHand r := by
  rcases Bool.eq_false_or_eq_true c.m_useHandRetargeting with hu | hu
  swap
  · exact ⟨c.m_leftHand, c.m_rightHand, by unfold getFeedbackHands; rw [if_neg (by simp [hu])]; rfl, sameTuning_refl _,
      sameTuning_refl _⟩
  · obtain ⟨sl, sr, bl, br⟩ := h hu
    obtain ⟨l, el, tl, _⟩ := getHandFeedback_spec law hl reads.leftHand c.m_leftHand sl bl
    obtain ⟨r, er, tr, _⟩ := getHandFeedback_spec law hl reads.rightHand c.m_rightHand sr br
    exact ⟨l, r, by simp [getFeedbackHands, hu, el, er], tl, tr⟩

theorem scatterJointUpdate_defined :
    ∀ (u : List ℚ) (idx : List Nat) (buf : List ℚ), u.length ≤ idx.length →
      (∀ k ∈ idx.take u.length, k < buf.length) →
      ∃ buf2, scatterJointUpdate u idx buf = some buf2 ∧ buf2.length = buf.length
  | [], _, buf, _, _ => ⟨buf, rfl, rfl⟩
  | _ :: _, [], _, h, _ => by simp at h
  | x :: u, k :: idx, buf, h, hk => by
    have hk0 : k < buf.length := hk k (by simp)
    have h2 : u.length ≤ idx.length := by simpa using h
    have hk2 : ∀ k2 ∈ idx.take u.length, k2 < (buf.set k x).length := by
      intro k2 hk2
      rw [List.length_set]
      exact hk k2 (by simp [hk2])
    obtain ⟨buf2, e, l⟩ := scatterJointUpdate_defined u idx (buf.set k x) h2 hk2
    exact ⟨buf2, by simp [scatterJointUpdate, vectorWrite, hk0, e], by simpa using l⟩

theorem getFeedbackJoints_spec (law : FilterLaw) (hl : LawSized law) (reads : PortReads)
    (c : RetargetingClient) (h : JointsOK reads c) :
    ∃ j, getFeedbackJoints law reads c = some { c with m_jointRetargeting := j } ∧
      SameTuning c.m_jointRetargeting j ∧
      (if c.m_useJointRetargeting then
        (match reads.joint with
          | some u => scatterJointUpdate u c.m_retargetJointsIndex
              c.m_jointRetargeting.yarpReadBuffer = some j.yarpReadBuffer
          | none => j.yarpReadBuffer = c.m_jointRetargeting.yarpReadBuffer)
      else j = c.m_jointRetargeting) := by
  rcases Bool.eq_false_or_eq_true c.m_useJointRetargeting with hu | hu
  swap
  · exact ⟨c.m_jointRetargeting, by unfold getFeedbackJoints; rw [if_neg (by simp [hu])]; rfl,
      sameTuning_refl _, by simp [hu]⟩
  · obtain ⟨hs, hd, hr⟩ := h hu
    obtain ⟨g, hg⟩ := Option.isSome_iff_exists.1 hs
    have main : ∀ buf : List ℚ, buf.length = c.m_jointRetargeting.yarpReadBuffer.length →
        (match reads.joint with
          | some u => scatterJointUpdate u c.m_retargetJointsIndex
              c.m_jointRetargeting.yarpReadBuffer
          | none => some c.m_jointRetargeting.yarpReadBuffer) = some buf →
        getFeedbackJoints law reads c = some { c with m_jointRetargeting :=
          { c.m_jointRetargeting with yarpReadBuffer := buf,
                                      smoother := some (g.computeNextValues law buf),
                                      data := (law g buf).1 } } := by
      intro buf hbuf e
      have hlen : (law g buf).1.length = c.m_jointRetargeting.data.length := by
        rw [(hl g _).1, hbuf, hd]
      unfold getFeedbackJoints
      rw [if_pos hu, e]
      simp [hg, minJerkTrajGen.computeNextValues, hlen]
    rcases hq : reads.joint with _ | u
    · have e := main c.m_jointRetargeting.yarpReadBuffer rfl (by rw [hq])
      exact ⟨_, e, by simp [SameTuning, hg, minJerkTrajGen.computeNextValues], by simp [hu]⟩
    · obtain ⟨hul, huk⟩ := hr u (by simp [hq])
      obtain ⟨buf2, e2, l2⟩ := scatterJointUpdate_defined u c.m_retargetJointsIndex
        c.m_jointRetargeting.yarpReadBuffer hul huk
      have e := main buf2 l2 (by rw [hq]; exact e2)
      exact ⟨_, e, by simp [SameTuning, hg, minJerkTrajGen.computeNextValues], by simp [hu, e2]⟩

theorem getFeedbackCoMHeight_spec (ar : DoubleArithmetic) (law : FilterLaw) (hl : LawSized law)
    (reads : PortReads)
    (c : RetargetingClient) (h : CoMHeightOK reads c) :
    ∃ e, getFeedbackCoMHeight ar law reads c = some { c with m_comHeight := e } ∧
      SameTuning c.m_comHeight e ∧
      (if c.m_useCoMHeightRetargeting then
        (if c.m_phase = Phase.walking then
          e.yarpReadBuffer = c.m_comHeight.yarpReadBuffer.set 0 c.m_comConstantHeight
        else match reads.comHeight with
          | some d => ∃ z, vectorAt d 2 = some z ∧
              e.yarpReadBuffer = c.m_comHeight.yarpReadBuffer.set 0
                (ar.add (ar.mul (ar.sub z c.m_comHeightInputOffset) c.m_comHeightScalingFactor)
                  c.m_comConstantHeight)
          | none => e.yarpReadBuffer = c.m_comHeight.yarpReadBuffer)
      else e = c.m_comHeight) := by
  rcases Bool.eq_false_or_eq_true c.m_useCoMHeightRetargeting with hu | hu
  swap
  · exact ⟨c.m_comHeight, by unfold getFeedbackCoMHeight; rw [if_neg (by simp [hu])]; rfl,
      sameTuning_refl _, by simp [hu]⟩
  · obtain ⟨hs, hb, hr⟩ := h hu
    obtain ⟨g, hg⟩ := Option.isSome_iff_exists.1 hs
    have main : ∀ buf : List ℚ, buf.length = c.m_comHeight.yarpReadBuffer.length →
        (if c.m_phase = Phase.walking then
            vectorWrite c.m_comHeight.yarpReadBuffer 0 c.m_comConstantHeight
          else match reads.comHeight with
            | some desiredCoMHeight => do
              let z ← vectorAt desiredCoMHeight 2
              vectorWrite c.m_comHeight.yarpReadBuffer 0
                (ar.add (ar.mul (ar.sub z c.m_comHeightInputOffset) c.m_comHeightScalingFactor)
                  c.m_comConstantHeight)
            | none => some c.m_comHeight.yarpReadBuffer) = some buf →
        ∃ e, getFeedbackCoMHeight ar law reads c = some { c with m_comHeight := e } ∧
          SameTuning c.m_comHeight e ∧ e.yarpReadBuffer = buf := by
      intro buf hbuf e
      have h1 : 0 < (law g buf).1.length := by rw [(hl g _).1, hbuf]; exact hb
      have h2 : 0 < (law g buf).2.length := by rw [(hl g _).2, hbuf]; exact hb
      refine ⟨{ c.m_comHeight with yarpReadBuffer := buf,
                                   smoother := some (g.computeNextValues law buf),
                                   data := { position := (law g buf).1.get ⟨0, h1⟩,
                                             velocity := (law g buf).2.get ⟨0, h2⟩ } },
        ?_, ?_, rfl⟩
      · unfold getFeedbackCoMHeight
        rw [if_pos hu, e]
        simp [hg, minJerkTrajGen.computeNextValues, vectorAt_of_lt h1, vectorAt_of_lt h2]
      · simp [SameTuning, hg, minJerkTrajGen.computeNextValues]
    by_cases hw : c.m_phase = Phase.walking
    · obtain ⟨e, e1, e2, e3⟩ := main (c.m_comHeight.yarpReadBuffer.set 0 c.m_comConstantHeight)
        (by simp) (by simp [hw, vectorWrite, hb])
      exact ⟨e, e1, e2, by simp [hu, hw, e3]⟩
    · rcases hq : reads.comHeight with _ | d
      · obtain ⟨e, e1, e2, e3⟩ := main c.m_comHeight.yarpReadBuffer rfl (by simp [hw, hq])
        exact ⟨e, e1, e2, by simp [hu, hw, e3]⟩
      · have hd : 2 < d.length := hr hw d (by simp [hq])
        obtain ⟨e, e1, e2, e3⟩ := main (c.m_comHeight.yarpReadBuffer.set 0
          (ar.add (ar.mul (ar.sub (d.get ⟨2, hd⟩) c.m_comHeightInputOffset)
                    c.m_comHeightScalingFactor)
                  c.m_comConstantHeight)) (by simp)
          (by simp [hw, hq, vectorAt_of_lt hd, vectorWrite, hb])
        exact ⟨e, e1, e2, by simp [hu, hw, e3, vectorAt_of_lt hd]⟩

theorem getFeedback_channels (ar : DoubleArithmetic) (law : FilterLaw) (hl : LawSized law)
    (reads : PortReads) (now : ℚ)
    (c : RetargetingClient) (h : TickOK reads c) :
    ∃ l r j e,
      getFeedback ar law reads now c = getFeedbackCheckApproaching ar now
        { c with m_leftHand := l, m_rightHand := r, m_jointRetargeting := j, m_comHeight := e } ∧
      SameTuning c.m_leftHand l ∧ SameTuning c.m_rightHand r ∧
      SameTuning c.m_jointRetargeting j ∧ SameTuning c.m_comHeight e ∧
      (if c.m_useJointRetargeting then
        (match reads.joint with
          | some u => scatterJointUpdate u c.m_retargetJointsIndex
              c.m_jointRetargeting.yarpReadBuffer = some j.yarpReadBuffer
          | none => j.yarpReadBuffer = c.m_jointRetargeting.yarpReadBuffer)
      else j = c.m_jointRetargeting) ∧
      (if c.m_useCoMHeightRetargeting then
        (if c.m_phase = Phase.walking then
          e.yarpReadBuffer = c.m_comHeight.yarpReadBuffer.set 0 c.m_comConstantHeight
        else match reads.comHeight with
          | some d => ∃ z, vectorAt d 2 = some z ∧
              e.yarpReadBuffer = c.m_comHeight.yarpReadBuffer.set 0
                (ar.add (ar.mul (ar.sub z c.m_comHeightInputOffset) c.m_comHeightScalingFactor)
                  c.m_comConstantHeight)
          | none => e.yarpReadBuffer = c.m_comHeight.yarpReadBuffer)
      else e = c.m_comHeight) := by
  obtain ⟨hh, hj, hc⟩ := h
  obtain ⟨l, r, e1, tl, tr⟩ := getFeedbackHands_spec law hl reads c hh
  obtain ⟨j, e2, tj, fj⟩ := getFeedbackJoints_spec law hl reads
    { c with m_leftHand := l, m_rightHand := r } hj
  obtain ⟨e, e3, te, fe⟩ := getFeedbackCoMHeight_spec ar law hl reads
    { c with m_leftHand := l, m_rightHand := r, m_jointRetargeting := j } hc
  refine ⟨l, r, j, e, ?_, tl, tr, tj, te, fj, fe⟩
  unfold getFeedback
  rw [e1]
  simp only [Option.bind_eq_bind, Option.some_bind]
  rw [e2]
  simp only [Option.some_bind]
  rw [e3]
  simp only [Option.some_bind]

theorem sameButSmoother_buffer {Data : Type} {e1 e2 : RetargetingElement Data}
    (h : SameButSmoother e1 e2) : e2.yarpReadBuffer = e1.yarpReadBuffer := by
  unfold SameButSmoother at h
  rw [h]

theorem tickOK_smoothersReady {reads : PortReads} {c : RetargetingClient}
    {l r : RetargetingElement Transform} {j : RetargetingElement (List ℚ)}
    {e : RetargetingElement KinematicState} (h : TickOK reads c)
    (tl : SameTuning c.m_leftHand l) (tr : SameTuning c.m_rightHand r)
    (tj : SameTuning c.m_jointRetargeting j) (te : SameTuning c.m_comHeight e) :
    SmoothersReady
      { c with m_leftHand := l, m_rightHand := r, m_jointRetargeting := j, m_comHeight := e } := by
  refine ⟨fun hu => ⟨?_, ?_⟩, fun hu => ?_, fun hu => ?_⟩
  · show l.smoother.isSome = true
    rw [sameTuning_isSome tl]; exact (h.1 hu).1
  · show r.smoother.isSome = true
    rw [sameTuning_isSome tr]; exact (h.1 hu).2.1
  · show j.smoother.isSome = true
    rw [sameTuning_isSome tj]; exact (h.2.1 hu).1
  · show e.smoother.isSome = true
    rw [sameTuning_isSome te]; exact (h.2.2 hu).1

theorem getFeedbackCheckApproaching_buffers (ar : DoubleArithmetic) (now : ℚ)
    (c : RetargetingClient)
    (h : SmoothersReady c) :
    ∃ c2, getFeedbackCheckApproaching ar now c = some c2 ∧
      c2.m_jointRetargeting.yarpReadBuffer = c.m_jointRetargeting.yarpReadBuffer ∧
      c2.m_comHeight.yarpReadBuffer = c.m_comHeight.yarpReadBuffer := by
  unfold getFeedbackCheckApproaching
  by_cases hp : c.m_phase = Phase.approacing
  · by_cases hn : ar.sub now c.m_startingApproachingPhaseTime > c.m_approachPhaseDuration
    · obtain ⟨c2, e2, r2, -⟩ := stopApproachingPhase_spec c h
      obtain ⟨-, -, s3, s4⟩ := allRetunedWalking_sameButSmoother r2
      rw [if_pos hp, if_pos hn]
      exact ⟨c2, e2, sameButSmoother_buffer s3, sameButSmoother_buffer s4⟩
    · rw [if_pos hp, if_neg hn]
      exact ⟨c, rfl, rfl, rfl⟩
  · rw [if_neg hp]
    exact ⟨c, rfl, rfl, rfl⟩

theorem getFeedback_buffers (ar : DoubleArithmetic) (law : FilterLaw) (hl : LawSized law)
    (reads : PortReads) (now : ℚ)
    (c : RetargetingClient) (h : TickOK reads c) :
    ∃ c2, getFeedback ar law reads now c = some c2 ∧
      (if c.m_useJointRetargeting then
        (match reads.joint with
          | some u => scatterJointUpdate u c.m_retargetJointsIndex
              c.m_jointRetargeting.yarpReadBuffer = some c2.m_jointRetargeting.yarpReadBuffer
          | none => c2.m_jointRetargeting.yarpReadBuffer = c.m_jointRetargeting.yarpReadBuffer)
      else c2.m_jointRetargeting.yarpReadBuffer = c.m_jointRetargeting.yarpReadBuffer) ∧
      (if c.m_useCoMHeightRetargeting then
        (if c.m_phase = Phase.walking then
          c2.m_comHeight.yarpReadBuffer = c.m_comHeight.yarpReadBuffer.set 0 c.m_comConstantHeight
        else match reads.comHeight with
          | some d => ∃ z, vectorAt d 2 = some z ∧
              c2.m_comHeight.yarpReadBuffer = c.m_comHeight.yarpReadBuffer.set 0
                (ar.add (ar.mul (ar.sub z c.m_comHeightInputOffset) c.m_comHeightScalingFactor)
                  c.m_comConstantHeight)
          | none => c2.m_comHeight.yarpReadBuffer = c.m_comHeight.yarpReadBuffer)
      else c2.m_comHeight.yarpReadBuffer = c.m_comHeight.yarpReadBuffer) := by
  obtain ⟨l, r, j, e, eq, tl, tr, tj, te, fj, fe⟩ :=
    getFeedback_channels ar law hl reads now c h
  obtain ⟨c2, e2, bj, be⟩ := getFeedbackCheckApproaching_buffers ar now _
    (tickOK_smoothersReady h tl tr tj te)
  refine ⟨c2, by rw [eq]; exact e2, ?_, ?_⟩
  · rw [bj]
    by_cases hu : c.m_useJointRetargeting = true
    · rw [if_pos hu] at fj ⊢
      exact fj
    · rw [if_neg hu] at fj ⊢
      rw [fj]
  · rw [be]
    by_cases hu : c.m_useCoMHeightRetargeting = true
    · rw [if_pos hu] at fe ⊢
      exact fe
    · rw [if_neg hu] at fe ⊢
      rw [fe]

theorem scatterJointUpdate_spec (u : List ℚ) :
    ∀ (idx : List Nat) (buf buf2 : List ℚ), scatterJointUpdate u idx buf = some buf2 →
      buf2.length = buf.length ∧
      (∀ s, (∀ i, i < u.length → idx[i]? ≠ some s) → buf2[s]? = buf[s]?) ∧
      (∀ i k, i < u.length → idx[i]? = some k →
        (∀ i2, i2 < u.length → i < i2 → idx[i2]? ≠ some k) → buf2[k]? = u[i]?) := by
  induction u with
  | nil =>
    intro idx buf buf2 h
    simp only [scatterJointUpdate, Option.some.injEq] at h
    subst h
    exact ⟨rfl, fun _ _ => rfl, fun i k hi => absurd hi (by simp)⟩
  | cons x u ih =>
    intro idx buf buf2 h
    cases idx with
    | nil => simp [scatterJointUpdate] at h
    | cons k0 idx =>
      simp only [scatterJointUpdate, vectorWrite] at h
      by_cases hk : k0 < buf.length
      · rw [if_pos hk] at h
        simp only [Option.some_bind] at h
        obtain ⟨hlen, hkeep, hlast⟩ := ih idx (buf.set k0 x) buf2 h
        have keep : ∀ s, (∀ i, i < (x :: u).length → (k0 :: idx)[i]? ≠ some s) →
            buf2[s]? = buf[s]? := by
          intro s hs
          have h0 : k0 ≠ s := by
            have := hs 0 (by simp)
            simpa using this
          have hrest : ∀ i, i < u.length → idx[i]? ≠ some s := by
            intro i hi
            have := hs (i + 1) (by simpa using hi)
            simpa using this
          rw [hkeep s hrest, List.getElem?_set_ne h0]
        refine ⟨by rw [hlen, List.length_set], keep, ?_⟩
        intro i k hi hik hlater
        cases i with
        | zero =>
          have hk0 : k0 = k := by simpa using hik
          subst hk0
          have hrest : ∀ i, i < u.length → idx[i]? ≠ some k0 := by
            intro i hi2
            have := hlater (i + 1) (by simpa using hi2) (by omega)
            simpa using this
          rw [hkeep k0 hrest, List.getElem?_set_self hk]
          simp
        | succ i =>
          have hi2 : i < u.length := by simpa using hi
          have hik2 : idx[i]? = some k := by simpa using hik
          have hl2 : ∀ i2, i2 < u.length → i < i2 → idx[i2]? ≠ some k := by
            intro i2 h1 h2
            have := hlater (i2 + 1) (by simpa using h1) (by omega)
            simpa using this
          rw [hlast i k hi2 hik2 hl2]
          simp
      · rw [if_neg hk] at h
        simp at h

/-! ## Lemmas on reset -/

theorem resetCoMHeightLoop_spec (port : Nat → Option (List ℚ)) (c : RetargetingClient) :
    ∀ (more attempt : Nat),
      (∀ k, attempt ≤ k → k ≤ attempt + more → ∀ v ∈ port k, 2 < v.length) →
      ∃ ok c2 reads, resetCoMHeightLoop port more attempt c = some (ok, c2, reads) ∧
        (ok = true → ∃ k v z, attempt ≤ k ∧ k ≤ attempt + more ∧ port k = some v ∧
          (∀ k2, attempt ≤ k2 → k2 < k → port k2 = none) ∧ vectorAt v 2 = some z ∧
          c2 = { c with m_comHeightInputOffset := z } ∧ reads = k + 1) ∧
        (ok = false → (∀ k, attempt ≤ k → k ≤ attempt + more → port k = none) ∧
          c2 = c ∧ reads = attempt + more + 1) := by
  intro more
  induction more with
  | zero =>
    intro attempt hv
    rcases hp : port attempt with _ | v
    · refine ⟨false, c, attempt + 1, by rw [resetCoMHeightLoop, hp], by simp, ?_⟩
      intro _
      refine ⟨?_, rfl, rfl⟩
      intro k h1 h2
      have : k = attempt := by omega
      rw [this, hp]
    · have hl : 2 < v.length := hv attempt (le_refl _) (by omega) v (by simp [hp])
      refine ⟨true, { c with m_comHeightInputOffset := v.get ⟨2, hl⟩ }, attempt + 1, ?_, ?_,
        by simp⟩
      · rw [resetCoMHeightLoop, hp]
        simp [vectorAt_of_lt hl]
      · intro _
        exact ⟨attempt, v, _, le_refl _, by omega, hp, fun k2 h1 h2 => by omega,
          vectorAt_of_lt hl, rfl, rfl⟩
  | succ more ih =>
    intro attempt hv
    rcases hp : port attempt with _ | v
    · obtain ⟨ok, c2, reads, e, ht, hf⟩ := ih (attempt + 1)
        (fun k h1 h2 => hv k (by omega) (by omega))
      refine ⟨ok, c2, reads, by rw [resetCoMHeightLoop, hp]; exact e, ?_, ?_⟩
      · intro hok
        obtain ⟨k, v, z, h1, h2, h3, h4, h5, h6, h7⟩ := ht hok
        refine ⟨k, v, z, by omega, by omega, h3, ?_, h5, h6, h7⟩
        intro k2 g1 g2
        by_cases hk : k2 = attempt
        · rw [hk, hp]
        · exact h4 k2 (by omega) g2
      · intro hok
        obtain ⟨h1, h2, h3⟩ := hf hok
        refine ⟨?_, h2, by omega⟩
        intro k g1 g2
        by_cases hk : k = attempt
        · rw [hk, hp]
        · exact h1 k (by omega) (by omega)
    · have hl : 2 < v.length := hv attempt (le_refl _) (by omega) v (by simp [hp])
      refine ⟨true, { c with m_comHeightInputOffset := v.get ⟨2, hl⟩ }, attempt + 1, ?_, ?_,
        by simp⟩
      · rw [resetCoMHeightLoop, hp]
        simp [vectorAt_of_lt hl]
      · intro _
        exact ⟨attempt, v, _, le_refl _, by omega, hp, fun k2 h1 h2 => by omega,
          vectorAt_of_lt hl, rfl, rfl⟩

theorem resetHandSmoother_defined (hand : RetargetingElement Transform)
    (h6 : 6 ≤ hand.yarpReadBuffer.length) (hs : hand.smoother.isSome = true) :
    ∃ h2, resetHandSmoother hand = some h2 := by
  obtain ⟨g, hg⟩ := Option.isSome_iff_exists.1 hs
  have h0 : 0 < hand.yarpReadBuffer.length := by omega
  have h1 : 1 < hand.yarpReadBuffer.length := by omega
  have h2 : 2 < hand.yarpReadBuffer.length := by omega
  have h3 : 3 < hand.yarpReadBuffer.length := by omega
  have h4 : 4 < hand.yarpReadBuffer.length := by omega
  have h5 : 5 < hand.yarpReadBuffer.length := by omega
  simp [resetHandSmoother, vectorWrite, hg, h0, h1, h2, h3, h4, h5]

theorem reset_reaches_loop (kinDynWrapper : WalkingFK) (port : Nat → Option (List ℚ))
    (c : RetargetingClient) (h : ResetOK kinDynWrapper port c) :
    ∃ c1, reset kinDynWrapper port c =
      (if c.m_useCoMHeightRetargeting then resetCoMHeightLoop port 99 0 c1
        else some (true, c1, 0)) := by
  obtain ⟨hh, hjl, hjs, hc⟩ := h
  have H : c.m_useHandRetargeting = false ∨ (c.m_useHandRetargeting = true ∧ ∃ l r,
      resetHandSmoother { c.m_leftHand with data := kinDynWrapper.headToLeftHand } = some l ∧
      resetHandSmoother { c.m_rightHand with data := kinDynWrapper.headToRightHand }
        = some r) := by
    rcases Bool.eq_false_or_eq_true c.m_useHandRetargeting with uh | uh
    · obtain ⟨b1, b2, s1, s2⟩ := hh uh
      obtain ⟨l, el⟩ := resetHandSmoother_defined
        { c.m_leftHand with data := kinDynWrapper.headToLeftHand } b1 s1
      obtain ⟨r, er⟩ := resetHandSmoother_defined
        { c.m_rightHand with data := kinDynWrapper.headToRightHand } b2 s2
      exact Or.inr ⟨uh, l, r, el, er⟩
    · exact Or.inl uh
  have J : c.m_useJointRetargeting = false ∨ (c.m_useJointRetargeting = true ∧
      ∃ g, c.m_jointRetargeting.smoother = some g) := by
    rcases Bool.eq_false_or_eq_true c.m_useJointRetargeting with uj | uj
    · exact Or.inr ⟨uj, Option.isSome_iff_exists.1 (hjs uj)⟩
    · exact Or.inl uj
  have C : c.m_useCoMHeightRetargeting = false ∨ (c.m_useCoMHeightRetargeting = true ∧
      0 < c.m_comHeight.yarpReadBuffer.length ∧ ∃ g, c.m_comHeight.smoother = some g) := by
    rcases Bool.eq_false_or_eq_true c.m_useCoMHeightRetargeting with uc | uc
    · exact Or.inr ⟨uc, (hc uc).1, Option.isSome_iff_exists.1 (hc uc).2.1⟩
    · exact Or.inl uc
  rcases H with uh | ⟨uh, l, r, el, er⟩ <;> rcases J with uj | ⟨uj, gj, hgj⟩ <;>
    rcases C with uc | ⟨uc, hb, gc, hgc⟩ <;>
    simp [reset, vectorWrite, *]

/-! ## Lemmas on sequences of ticks -/

theorem getFeedback_step (ar : DoubleArithmetic) (law : FilterLaw) (hl : LawSized law)
    (reads : PortReads) (now : ℚ)
    (c : RetargetingClient) (h : TickOK reads c) :
    ∃ c2, getFeedback ar law reads now c = some c2 ∧ SameSettings c c2 ∧
      c2.m_startingApproachingPhaseTime = c.m_startingApproachingPhaseTime ∧
      (if c.m_phase = Phase.approacing ∧
          ar.sub now c.m_startingApproachingPhaseTime > c.m_approachPhaseDuration then
        c2.m_phase = Phase.stance ∧ TimeConstantsWalking c2
      else c2.m_phase = c.m_phase ∧ c2.timeConstants = c.timeConstants) := by
  obtain ⟨l, r, j, e, eq, tl, tr, tj, te, -, -⟩ := getFeedback_channels ar law hl reads now c h
  have ql := sameTuning_times tl
  have qr := sameTuning_times tr
  have qj := sameTuning_times tj
  have qe := sameTuning_times te
  by_cases hx : c.m_phase = Phase.approacing ∧
      ar.sub now c.m_startingApproachingPhaseTime > c.m_approachPhaseDuration
  · obtain ⟨c2, e2, r2, f2⟩ := stopApproachingPhase_spec _ (tickOK_smoothersReady h tl tr tj te)
    obtain ⟨s1, s2, s3, s4⟩ := allRetunedWalking_sameButSmoother r2
    have p1 := sameButSmoother_times s1
    have p2 := sameButSmoother_times s2
    have p3 := sameButSmoother_times s3
    have p4 := sameButSmoother_times s4
    refine ⟨c2, ?_, ?_, by rw [f2], ?_⟩
    · rw [eq]
      unfold getFeedbackCheckApproaching
      rw [if_pos hx.1, if_pos hx.2]
      exact e2
    · exact sameSettings_of_channels ⟨p1.1.trans ql.1, p1.2.trans ql.2⟩
        ⟨p2.1.trans qr.1, p2.2.trans qr.2⟩ ⟨p3.1.trans qj.1, p3.2.trans qj.2⟩
        ⟨p4.1.trans qe.1, p4.2.trans qe.2⟩ f2
    · rw [if_pos hx]
      exact ⟨by rw [f2], allRetunedWalking_timeConstants r2 (by rw [f2]; simp)⟩
  · refine ⟨{ c with m_leftHand := l, m_rightHand := r, m_jointRetargeting := j, m_comHeight := e },
      ?_, ?_, rfl, ?_⟩
    · rw [eq]
      unfold getFeedbackCheckApproaching
      by_cases hp : c.m_phase = Phase.approacing
      · have hn : ¬ ar.sub now c.m_startingApproachingPhaseTime > c.m_approachPhaseDuration :=
          fun hgt => hx ⟨hp, hgt⟩
        rw [if_pos hp, if_neg hn]; rfl
      · rw [if_neg hp]; rfl
    · exact sameSettings_of_channels ql qr qj qe rfl
    · rw [if_neg hx]
      refine ⟨rfl, ?_⟩
      simp [RetargetingClient.timeConstants, sameTuning_timeConstant tl,
        sameTuning_timeConstant tr, sameTuning_timeConstant tj, sameTuning_timeConstant te]

theorem sameSettings_trans {c1 c2 c3 : RetargetingClient} (h12 : SameSettings c1 c2)
    (h23 : SameSettings c2 c3) : SameSettings c1 c3 := by
  obtain ⟨⟨a1, a2, a3, a4⟩, ⟨b1, b2, b3, b4, b5, b6, b7, b8⟩, ⟨d1, d2, d3, d4, d5⟩⟩ := h12
  obtain ⟨⟨x1, x2, x3, x4⟩, ⟨y1, y2, y3, y4, y5, y6, y7, y8⟩, ⟨z1, z2, z3, z4, z5⟩⟩ := h23
  exact ⟨⟨x1.trans a1, x2.trans a2, x3.trans a3, x4.trans a4⟩,
    ⟨y1.trans b1, y2.trans b2, y3.trans b3, y4.trans b4, y5.trans b5, y6.trans b6,
      y7.trans b7, y8.trans b8⟩,
    ⟨z1.trans d1, z2.trans d2, z3.trans d3, z4.trans d4, z5.trans d5⟩⟩

theorem timeConstantsWalking_of_same {c c2 : RetargetingClient} (hs : SameSettings c c2)
    (ht : c2.timeConstants = c.timeConstants) (h : TimeConstantsWalking c) :
    TimeConstantsWalking c2 := by
  obtain ⟨⟨a1, _, a3, a4⟩, ⟨_, b2, _, b4, _, b6, _, b8⟩, _⟩ := hs
  simp only [RetargetingClient.timeConstants, List.cons.injEq, and_true] at ht
  obtain ⟨t1, t2, t3, t4⟩ := ht
  obtain ⟨h1, h2, h3⟩ := h
  refine ⟨fun hu => ?_, fun hu => ?_, fun hu => ?_⟩
  · rw [a1] at hu
    rw [t1, t2, b2, b4]
    exact h1 hu
  · rw [a3] at hu
    rw [t3, b6]
    exact h2 hu
  · rw [a4] at hu
    rw [t4, b8]
    exact h3 hu

theorem getFeedbackMany_settled (ar : DoubleArithmetic) (law : FilterLaw) (hl : LawSized law) :
    ∀ (ticks : List (PortReads × ℚ)) (c : RetargetingClient), TicksOK ar law ticks c →
      c.m_phase ≠ Phase.approacing →
      ∃ c2, getFeedbackMany ar law ticks c = some c2 ∧ SameSettings c c2 ∧
        c2.m_phase = c.m_phase ∧ c2.timeConstants = c.timeConstants
  | [], c, _, _ =>
    ⟨c, rfl, ⟨⟨rfl, rfl, rfl, rfl⟩, ⟨rfl, rfl, rfl, rfl, rfl, rfl, rfl, rfl⟩,
      ⟨rfl, rfl, rfl, rfl, rfl⟩⟩, rfl, rfl⟩
  | (reads, now) :: rest, c, hok, hp => by
    obtain ⟨c1, e1, s1, -, p1⟩ := getFeedback_step ar law hl reads now c hok.1
    rw [if_neg (fun hx => hp hx.1)] at p1
    obtain ⟨c2, e2, s2, p2, t2⟩ := getFeedbackMany_settled ar law hl rest c1 (hok.2 c1 e1)
      (by rw [p1.1]; exact hp)
    refine ⟨c2, ?_, sameSettings_trans s1 s2, p2.trans p1.1, t2.trans p1.2⟩
    simp [getFeedbackMany, e1, e2]

theorem getFeedbackMany_expires (ar : DoubleArithmetic) (law : FilterLaw) (hl : LawSized law) :
    ∀ (ticks : List (PortReads × ℚ)) (c : RetargetingClient), TicksOK ar law ticks c →
      c.m_phase = Phase.approacing →
      (∃ t ∈ ticks, ar.sub t.2 c.m_startingApproachingPhaseTime > c.m_approachPhaseDuration) →
      ∃ c2, getFeedbackMany ar law ticks c = some c2 ∧ SameSettings c c2 ∧
        c2.m_phase = Phase.stance ∧ TimeConstantsWalking c2
  | [], _, _, _, hex => by
    obtain ⟨t, ht, _⟩ := hex
    simp at ht
  | (reads, now) :: rest, c, hok, hp, hex => by
    obtain ⟨c1, e1, s1, st1, p1⟩ := getFeedback_step ar law hl reads now c hok.1
    by_cases hx : ar.sub now c.m_startingApproachingPhaseTime > c.m_approachPhaseDuration
    · rw [if_pos ⟨hp, hx⟩] at p1
      obtain ⟨c2, e2, s2, p2, t2⟩ := getFeedbackMany_settled ar law hl rest c1 (hok.2 c1 e1)
        (by rw [p1.1]; decide)
      refine ⟨c2, ?_, sameSettings_trans s1 s2, p2.trans p1.1,
        timeConstantsWalking_of_same s2 t2 p1.2⟩
      simp [getFeedbackMany, e1, e2]
    · rw [if_neg (fun h => hx h.2)] at p1
      have hex1 : ∃ t ∈ rest,
          ar.sub t.2 c1.m_startingApproachingPhaseTime > c1.m_approachPhaseDuration := by
        obtain ⟨t, ht, hgt⟩ := hex
        rw [st1, s1.2.2.1]
        rcases List.mem_cons.1 ht with h0 | h0
        · rw [h0] at hgt
          exact absurd hgt hx
        · exact ⟨t, h0, hgt⟩
      obtain ⟨c2, e2, s2, p2, t2⟩ := getFeedbackMany_expires ar law hl rest c1 (hok.2 c1 e1)
        (p1.1.trans hp) hex1
      refine ⟨c2, ?_, sameSettings_trans s1 s2, p2, t2⟩
      simp [getFeedbackMany, e1, e2]

/-- In the phase `approacing` the approach phase ends as the design says: after
`startApproachingPhase` at time `t0` and a sequence of defined ticks of which one is at a
time `t` with `t - t0 > m_approachPhaseDuration` (the subtraction of the doubles), the phase
is `stance` and every enabled channel runs with its walking constant. -/
theorem startApproachingPhase_expires_in_approaching (ar : DoubleArithmetic) (law : FilterLaw)
    (hl : LawSized law)
    (c : RetargetingClient) (t0 : ℚ) (ticks : List (PortReads × ℚ))
    (hp : c.m_phase = Phase.approacing) (hany : c.anyChannel = true) (hr : SmoothersReady c)
    (hok : ∀ c1, startApproachingPhase t0 c = some c1 → TicksOK ar law ticks c1)
    (hex : ∃ t ∈ ticks, ar.sub t.2 t0 > c.m_approachPhaseDuration) :
    ∃ c1 c2, startApproachingPhase t0 c = some c1 ∧
      getFeedbackMany ar law ticks c1 = some c2 ∧
      c2.m_phase = Phase.stance ∧ TimeConstantsWalking c2 ∧ SameSettings c c2 := by
  obtain ⟨c1, e1, r1, f1⟩ := startApproachingPhase_spec t0 c hr
  rw [hany, if_pos rfl] at f1
  obtain ⟨q1, q2, q3, q4⟩ := allRetunedApproaching_sameButSmoother r1
  have s1 : SameSettings c c1 := by
    exact sameSettings_of_channels (p := c.m_phase) (t := t0) (sameButSmoother_times q1)
      (sameButSmoother_times q2) (sameButSmoother_times q3) (sameButSmoother_times q4) f1
  have hp1 : c1.m_phase = Phase.approacing := by rw [f1]; exact hp
  have hst : c1.m_startingApproachingPhaseTime = t0 := by rw [f1]
  have hex1 : ∃ t ∈ ticks,
      ar.sub t.2 c1.m_startingApproachingPhaseTime > c1.m_approachPhaseDuration := by
    obtain ⟨t, ht, hgt⟩ := hex
    refine ⟨t, ht, ?_⟩
    rw [hst, s1.2.2.1]
    exact hgt
  obtain ⟨c2, e2, s2, p2, t2⟩ := getFeedbackMany_expires ar law hl ticks c1 (hok c1 e1) hp1 hex1
  exact ⟨c1, c2, e1, e2, p2, t2, sameSettings_trans s1 s2⟩

/-! ## Leaving the approach phase through setPhase -/

/-- Claim C1. Let `X` be `stance` or `walking`. From a state in phase `approacing` whose enabled
channels own their smoothers, `setPhase X` returns a state in phase `X` in which the smoother of
every enabled channel has received exactly one `setT` with the walking constant of the channel
(so the enabled channels run with their walking constants), and nothing else has changed.
From a state in another phase, `setPhase X` changes the phase to `X` and nothing else:
no smoother, no time constant, no timer. -/
theorem setPhase_from_approaching (c : RetargetingClient) (X : Phase) (now : ℚ)
    (hX : X ≠ Phase.approacing) :
    (c.m_phase = Phase.approacing → SmoothersReady c →
      ∃ c2, setPhase X now c = some c2 ∧ c2.m_phase = X ∧
        AllRetunedWalking c c2 ∧ TimeConstantsWalking c2 ∧
        c2 = { c with m_leftHand := c2.m_leftHand, m_rightHand := c2.m_rightHand,
                      m_jointRetargeting := c2.m_jointRetargeting,
                      m_comHeight := c2.m_comHeight, m_phase := X }) ∧
    (c.m_phase ≠ Phase.approacing → setPhase X now c = some { c with m_phase := X }) := by
  constructor
  · intro hp hr
    obtain ⟨c1, e1, r1, f1⟩ := stopApproachingPhase_spec c hr
    have hp1 : c1.m_phase = Phase.stance := by rw [f1]
    have ht : TimeConstantsWalking c1 := allRetunedWalking_timeConstants r1 (by rw [f1]; simp)
    refine ⟨{ c1 with m_phase := X }, ?_, rfl, r1, ht, ?_⟩
    · cases X
      · exact absurd rfl hX
      · simp [setPhase, hp, e1]
      · simp [setPhase, hp, e1, hp1]
    · rw [f1]
  · intro hp
    simp [setPhase, hX, hp]

/-- Witness of C1 on the CoM-height client: from `approacing`, `setPhase walking` gives phase
`walking` and one `setT` to the walking constant 1/2; from `stance` only the phase changes. -/
theorem setPhase_from_approaching_witness :
    (setPhase Phase.walking 11 (comClient Phase.approacing) =
        some { comClient Phase.walking with
                m_comHeight := { (comClient Phase.walking).m_comHeight with
                  smoother := some { Ts := 1/100, T := 1/2, pos := [0], vel := [0],
                                     setTCalls := 1 } } }) ∧
      (∃ c2, setPhase Phase.walking 11 (comClient Phase.approacing) = some c2 ∧
        c2.m_phase = Phase.walking ∧ TimeConstantsWalking c2) ∧
      setPhase Phase.walking 11 (comClient Phase.stance) = some (comClient Phase.walking) := by
  have h := setPhase_from_approaching (comClient Phase.approacing) Phase.walking 11 (by decide)
  have h2 := setPhase_from_approaching (comClient Phase.stance) Phase.walking 11 (by decide)
  refine ⟨by rfl, ?_, h2.2 (by decide)⟩
  obtain ⟨c2, e, p, _, t, _⟩ := h.1 rfl (by decide)
  exact ⟨c2, e, p, t⟩

/-! ## Expiry of the approach phase in a tick -/

/-- Claim C2. A tick at clock reading `now` that is defined (`TickOK`, with a filter law that
keeps the dimension of its target) returns a state `c2` with the settings of `c`. If the
phase is `approacing` and `now - m_startingApproachingPhaseTime > m_approachPhaseDuration`,
then `c2` is in phase `stance` and every enabled channel runs with its walking constant.
Otherwise the tick changes neither the phase nor the time constant of any smoother. The
difference `now - m_startingApproachingPhaseTime` is the one the code computes, the
subtraction `ar.sub` of doubles with its rounding; the statement holds for every `ar`. -/
theorem getFeedback_expiry (ar : DoubleArithmetic) (law : FilterLaw) (hl : LawSized law)
    (reads : PortReads) (now : ℚ) (c : RetargetingClient) (h : TickOK reads c) :
    ∃ c2, getFeedback ar law reads now c = some c2 ∧ SameSettings c c2 ∧
      (if c.m_phase = Phase.approacing ∧
          ar.sub now c.m_startingApproachingPhaseTime > c.m_approachPhaseDuration then
        c2.m_phase = Phase.stance ∧ TimeConstantsWalking c2
      else c2.m_phase = c.m_phase ∧ c2.timeConstants = c.timeConstants) := by
  obtain ⟨c2, e, s, -, p⟩ := getFeedback_step ar law hl reads now c h
  exact ⟨c2, e, s, p⟩

/-- Witness of C2 on the CoM-height client in the approach phase (started at 10, lasting 5):
the tick at time 16 ends the phase and retunes to the walking constant 1/2; the tick at
time 15 changes neither the phase nor the time constant 2. All the values are doubles and so
are 16 - 10, 15 - 10 and the target (3/4 - 1/4) * 2 + 1/2 with its intermediate results:
the operations of the two ticks do not round. -/
theorem getFeedback_expiry_witness :
    (∃ c2, getFeedback exactArithmetic jumpLaw ⟨none, none, none, some [0, 0, 3/4]⟩ 16
          (binaryClient Phase.approacing) = some c2 ∧
        c2.m_phase = Phase.stance ∧ c2.m_comHeight.timeConstant = some (1/2)) ∧
    (∃ c2, getFeedback exactArithmetic jumpLaw ⟨none, none, none, some [0, 0, 3/4]⟩ 15
          (binaryClient Phase.approacing) = some c2 ∧
        c2.m_phase = Phase.approacing ∧ c2.m_comHeight.timeConstant = some 2) := by
  have ok : TickOK ⟨none, none, none, some [0, 0, 3/4]⟩ (binaryClient Phase.approacing) := by
    simp [TickOK, HandsOK, JointsOK, CoMHeightOK, binaryClient, comClient, sampleElement]
  constructor
  · obtain ⟨c2, e, s, p⟩ := getFeedback_expiry exactArithmetic jumpLaw jumpLaw_sized
      ⟨none, none, none, some [0, 0, 3/4]⟩ 16 (binaryClient Phase.approacing) ok
    rw [if_pos (by norm_num [binaryClient, comClient, exactArithmetic])] at p
    refine ⟨c2, e, p.1, ?_⟩
    rw [p.2.2.2 (s.1.2.2.2.trans rfl), s.2.1.2.2.2.2.2.2.2]
    simp [binaryClient, comClient, sampleElement]
  · obtain ⟨c2, e, s, p⟩ := getFeedback_expiry exactArithmetic jumpLaw jumpLaw_sized
      ⟨none, none, none, some [0, 0, 3/4]⟩ 15 (binaryClient Phase.approacing) ok
    rw [if_neg (by norm_num [binaryClient, comClient, exactArithmetic])] at p
    refine ⟨c2, e, p.1, ?_⟩
    have := p.2
    simp only [RetargetingClient.timeConstants, List.cons.injEq] at this
    rw [this.2.2.2.1]
    simp [binaryClient, comClient, sampleElement, RetargetingElement.timeConstant]

/-! ## The approach phase started by startApproachingPhase -/

/-- Claim C3, evaluated in the walking phase. The CoM-height client is in phase `walking` with
its smoother at the walking constant 1/2, and the approach duration is 5.
`startApproachingPhase` at time 20 sets the timer but `isApproachingPhase` stays false;
after the ticks at the times 22 and 26 (26 > 20 + 5) the phase is still `walking`, not
`stance`, and the smoother runs with the approach constant 2 while the walking constant
of the channel is 1/2. `startApproachingPhase` does not enter the phase `approacing`, so
no tick ends it. The two ticks perform no operation on doubles: the run is the same for
every arithmetic `ar`. -/
theorem startApproachingPhase_in_walking_never_expires (ar : DoubleArithmetic) :
    (startApproachingPhase 20 comClientWalking).map
        (fun c => (isApproachingPhase c, c.m_startingApproachingPhaseTime,
          c.m_approachPhaseDuration)) = some (false, 20, 5) ∧
    ((startApproachingPhase 20 comClientWalking).bind
        (getFeedbackMany ar jumpLaw [(comReads (3/20), 22), (comReads (3/20), 26)])).map
        (fun c => (c.m_phase, c.m_comHeight.timeConstant, c.m_comHeight.smoothingTimeInWalking))
      = some (Phase.walking, some 2, 1/2) :=
  ⟨rfl, rfl⟩

/-! ## The CoM-height target of a tick -/

/-- Claim C4. A defined tick with CoM-height retargeting enabled returns a state `c2` whose
smoother target, slot 0 of the raw buffer of the CoM-height channel, is: in phase `walking`,
`m_comConstantHeight`, whatever the port delivers; in another phase with a sample `s` read,
`(s(2) - m_comHeightInputOffset) * m_comHeightScalingFactor + m_comConstantHeight`; in another
phase with no sample, the buffer is the buffer of before. The subtraction, the product and
the sum are the ones the code computes, the operations `ar` of doubles with their rounding;
the statement holds for every `ar`. -/
theorem getFeedback_comHeight_target (ar : DoubleArithmetic) (law : FilterLaw)
    (hl : LawSized law) (reads : PortReads) (now : ℚ) (c : RetargetingClient)
    (h : TickOK reads c) (hc : c.m_useCoMHeightRetargeting = true) :
    ∃ c2, getFeedback ar law reads now c = some c2 ∧
      (c.m_phase = Phase.walking →
        vectorAt c2.m_comHeight.yarpReadBuffer 0 = some c.m_comConstantHeight) ∧
      (c.m_phase ≠ Phase.walking → ∀ s ∈ reads.comHeight, ∃ z, vectorAt s 2 = some z ∧
        vectorAt c2.m_comHeight.yarpReadBuffer 0 =
          some (ar.add (ar.mul (ar.sub z c.m_comHeightInputOffset) c.m_comHeightScalingFactor)
                  c.m_comConstantHeight)) ∧
      (c.m_phase ≠ Phase.walking → reads.comHeight = none →
        c2.m_comHeight.yarpReadBuffer = c.m_comHeight.yarpReadBuffer) := by
  obtain ⟨c2, e, -, fe⟩ := getFeedback_buffers ar law hl reads now c h
  have hb : 0 < c.m_comHeight.yarpReadBuffer.length := (h.2.2 hc).2.1
  rw [if_pos hc] at fe
  refine ⟨c2, e, ?_, ?_, ?_⟩
  · intro hw
    rw [if_pos hw] at fe
    rw [fe]
    simp [vectorAt, hb]
  · intro hw s hs
    rw [if_neg hw] at fe
    have hs2 : reads.comHeight = some s := by simpa using hs
    rw [hs2] at fe
    obtain ⟨z, hz, fz⟩ := fe
    refine ⟨z, hz, ?_⟩
    rw [fz]
    simp [vectorAt, hb]
  · intro hw hn
    rw [if_neg hw, hn] at fe
    exact fe

/-- Witness of C4. On doubles whose operations do not round (scaling factor 2, constant
height 1/2, input offset 1/4, a sample of height 3/4) the target becomes
(3/4 - 1/4) * 2 + 1/2 = 3/2 in phase `stance` and 1/2 in phase `walking`. The example of the
claim, over exact rationals: with the input offset 1/10 and a sample of height 3/20 the
target becomes 3/5 in phase `stance` and 1/2 in phase `walking`. -/
theorem getFeedback_comHeight_target_witness :
    (∃ c2, getFeedback exactArithmetic jumpLaw (comReads (3/4)) 30 (binaryClient Phase.stance)
        = some c2 ∧ vectorAt c2.m_comHeight.yarpReadBuffer 0 = some (3/2)) ∧
    (∃ c2, getFeedback exactArithmetic jumpLaw (comReads (3/4)) 30 (binaryClient Phase.walking)
        = some c2 ∧ vectorAt c2.m_comHeight.yarpReadBuffer 0 = some (1/2)) ∧
    (∃ c2, getFeedback exactArithmetic jumpLaw (comReads (3/20)) 30 (comClient Phase.stance)
        = some c2 ∧ vectorAt c2.m_comHeight.yarpReadBuffer 0 = some (3/5)) ∧
    (∃ c2, getFeedback exactArithmetic jumpLaw (comReads (3/20)) 30 (comClient Phase.walking)
        = some c2 ∧ vectorAt c2.m_comHeight.yarpReadBuffer 0 = some (1/2)) := by
  have ok : ∀ z p, TickOK (comReads z) (comClient p) := by
    intro z p
    simp [TickOK, HandsOK, JointsOK, CoMHeightOK, comClient, sampleElement, comReads]
  have okb : ∀ z p, TickOK (comReads z) (binaryClient p) := by
    intro z p
    simp [TickOK, HandsOK, JointsOK, CoMHeightOK, binaryClient, comClient, sampleElement,
      comReads]
  refine ⟨?_, ?_, ?_, ?_⟩
  · obtain ⟨c2, e, -, h2, -⟩ := getFeedback_comHeight_target exactArithmetic jumpLaw
      jumpLaw_sized (comReads (3/4)) 30 (binaryClient Phase.stance) (okb _ _) rfl
    obtain ⟨z, hz, ht⟩ := h2 (by decide) [0, 0, 3/4] rfl
    refine ⟨c2, e, ?_⟩
    rw [ht]
    simp [vectorAt] at hz
    subst hz
    norm_num [binaryClient, comClient, exactArithmetic]
  · obtain ⟨c2, e, h1, -, -⟩ := getFeedback_comHeight_target exactArithmetic jumpLaw
      jumpLaw_sized (comReads (3/4)) 30 (binaryClient Phase.walking) (okb _ _) rfl
    exact ⟨c2, e, h1 rfl⟩
  · obtain ⟨c2, e, -, h2, -⟩ := getFeedback_comHeight_target exactArithmetic jumpLaw
      jumpLaw_sized (comReads (3/20)) 30 (comClient Phase.stance) (ok _ _) rfl
    obtain ⟨z, hz, ht⟩ := h2 (by decide) [0, 0, 3/20] rfl
    refine ⟨c2, e, ?_⟩
    rw [ht]
    simp [vectorAt] at hz
    subst hz
    norm_num [comClient, exactArithmetic]
  · obtain ⟨c2, e, h1, -, -⟩ := getFeedback_comHeight_target exactArithmetic jumpLaw
      jumpLaw_sized (comReads (3/20)) 30 (comClient Phase.walking) (ok _ _) rfl
    exact ⟨c2, e, h1 rfl⟩

/-! ## The joint raw buffer of a tick -/

/-- Claim C5. A defined tick with joint retargeting enabled returns a state `c2`; for the
joint block to be defined, a sample read is no longer than the index vector and the indices
it meets lie inside the raw buffer. With no sample the raw buffer of the joint channel is
the buffer of before. With a sample `u` the buffer keeps its length; for every position `i`
of `u` whose slot `m_retargetJointsIndex[i]` is not written again by a later position, the
slot holds `u(i)` (the last write wins); and every slot that is `m_retargetJointsIndex[i]`
for no position `i` of `u` holds what it held before. -/
theorem getFeedback_joint_buffer (ar : DoubleArithmetic) (law : FilterLaw) (hl : LawSized law)
    (reads : PortReads)
    (now : ℚ) (c : RetargetingClient) (h : TickOK reads c)
    (hj : c.m_useJointRetargeting = true) :
    ∃ c2, getFeedback ar law reads now c = some c2 ∧
      (reads.joint = none →
        c2.m_jointRetargeting.yarpReadBuffer = c.m_jointRetargeting.yarpReadBuffer) ∧
      (∀ u ∈ reads.joint,
        c2.m_jointRetargeting.yarpReadBuffer.length
          = c.m_jointRetargeting.yarpReadBuffer.length ∧
        (∀ i k, i < u.length → c.m_retargetJointsIndex[i]? = some k →
          (∀ i2, i2 < u.length → i < i2 → c.m_retargetJointsIndex[i2]? ≠ some k) →
          vectorAt c2.m_jointRetargeting.yarpReadBuffer k = u[i]?) ∧
        (∀ s, (∀ i, i < u.length → c.m_retargetJointsIndex[i]? ≠ some s) →
          vectorAt c2.m_jointRetargeting.yarpReadBuffer s
            = vectorAt c.m_jointRetargeting.yarpReadBuffer s)) := by
  obtain ⟨c2, e, fj, -⟩ := getFeedback_buffers ar law hl reads now c h
  rw [if_pos hj] at fj
  refine ⟨c2, e, ?_, ?_⟩
  · intro hn
    rw [hn] at fj
    exact fj
  · intro u hu
    have hu2 : reads.joint = some u := by simpa using hu
    rw [hu2] at fj
    obtain ⟨hlen, hkeep, hlast⟩ := scatterJointUpdate_spec u _ _ _ fj
    exact ⟨hlen, hlast, hkeep⟩

/-- Witness of C5: three joints with raw buffer [1, 2, 3], index vector [2, 0] and the sample
[7, 9]. After the tick the slot 2 holds 7, the slot 0 holds 9 and the slot 1, which is not
mapped, still holds 2. The tick, in phase `stance` and without CoM-height retargeting,
performs no operation on doubles. -/
theorem getFeedback_joint_buffer_witness :
    ∃ c2, getFeedback exactArithmetic jumpLaw (jointReads [7, 9]) 30 (jointClient Phase.stance)
        = some c2 ∧
      vectorAt c2.m_jointRetargeting.yarpReadBuffer 2 = some 7 ∧
      vectorAt c2.m_jointRetargeting.yarpReadBuffer 0 = some 9 ∧
      vectorAt c2.m_jointRetargeting.yarpReadBuffer 1 = some 2 ∧
      c2.m_jointRetargeting.yarpReadBuffer.length = 3 := by
  have ok : TickOK (jointReads [7, 9]) (jointClient Phase.stance) := by
    simp [TickOK, HandsOK, JointsOK, CoMHeightOK, jointClient, sampleElement, jointReads]
  obtain ⟨c2, e, -, h2⟩ := getFeedback_joint_buffer exactArithmetic jumpLaw jumpLaw_sized
    (jointReads [7, 9]) 30
    (jointClient Phase.stance) ok rfl
  obtain ⟨hlen, hlast, hkeep⟩ := h2 [7, 9] rfl
  refine ⟨c2, e, ?_, ?_, ?_, hlen⟩
  · refine hlast 0 2 (by simp) rfl ?_
    intro i2 h1 h2
    have : i2 = 1 := by simp at h1; omega
    subst this
    simp [jointClient]
  · refine hlast 1 0 (by simp) rfl ?_
    intro i2 h1 h2
    simp at h1
    omega
  · rw [hkeep 1 ?_]
    · rfl
    · intro i hi
      have : i = 0 ∨ i = 1 := by simp at hi; omega
      rcases this with h | h <;> subst h <;> simp [jointClient]

/-! ## Start-up: the joint index vector -/

/-- Claim C6, evaluated on a joint list with a name that is not controlled. Joint retargeting is
configured for the joint "neck_roll" and the controlled joints are "torso_pitch" alone. The
start-up of a new client returns true, and the index vector holds the index 1, which is the
number of controlled joints and the size of the raw buffer: not a valid index. The next tick
that reads a joint sample writes outside the raw buffer (`none`). -/
theorem initialize_accepts_unknown_joint :
    ( RetargetingClient.initialize (jointConfig ["neck_roll"]) "walking" (1/100) ["torso_pitch"]
        newClient).1 = true ∧
    ( RetargetingClient.initialize (jointConfig ["neck_roll"]) "walking" (1/100) ["torso_pitch"]
        newClient).2.m_retargetJointsIndex = [1] ∧
    ( RetargetingClient.initialize (jointConfig ["neck_roll"]) "walking" (1/100) ["torso_pitch"]
        newClient).2.m_jointRetargeting.yarpReadBuffer.length = 1 ∧
    getFeedback exactArithmetic jumpLaw (jointReads [1/2]) 0
      ( RetargetingClient.initialize (jointConfig ["neck_roll"]) "walking" (1/100) ["torso_pitch"]
        newClient).2 = none := by
  refine ⟨by rfl, by rfl, by rfl, by rfl⟩

/-! ## Start-up: hand and joint retargeting together -/

/-- Claim C7. For a configuration that is not null and sets both `use_hand_retargeting` and
`use_joint_retargeting`, the start-up returns false and leaves every member variable as it
was but for the four enable flags: no smoother is created, no port is opened, and neither
`data` nor the raw buffer of the joint channel is resized. -/
theorem initialize_rejects_hand_and_joint (config : Searchable) (name : String) (period : ℚ)
    (controlledJointNames : List String) (c : RetargetingClient)
    (hn : config.isNull = false) (hh : config.use_hand_retargeting = some true)
    (hj : config.use_joint_retargeting = some true) :
    RetargetingClient.initialize config name period controlledJointNames c =
      (false, { c with m_useHandRetargeting := true,
                       m_useJointRetargeting := true,
                       m_useVirtualizer := config.use_virtualizer.getD false,
                       m_useCoMHeightRetargeting := config.use_com_retargeting.getD false }) := by
  simp [ RetargetingClient.initialize, hn, hh, hj]

/-- Witness of C7: a complete configuration with both flags set, on a new client. The
start-up fails, the smoothers stay null, the ports closed and the joint vectors empty. -/
theorem initialize_rejects_hand_and_joint_witness :
    RetargetingClient.initialize handAndJointConfig "walking" (1/100) ["torso_pitch"] newClient =
      (false, { newClient with m_useHandRetargeting := true, m_useJointRetargeting := true }) :=
  initialize_rejects_hand_and_joint handAndJointConfig "walking" (1/100) ["torso_pitch"]
    newClient rfl rfl rfl

/-! ## The CoM-height bootstrap of reset -/

/-- Claim C8. A defined call of `reset` returns a flag, a state `c2` and has made a number of
reads of the CoM-height port; `port k` is the result of the read number `k`. With CoM-height
retargeting enabled: the flag is true if and only if one of the reads 0 to 99 returns a
sample; if it is true, `m_comHeightInputOffset` is the entry 2 of the first sample returned,
at some read `k`, and `k + 1` reads were made, none after the sample; if it is false, 100
reads were made. With CoM-height retargeting disabled the flag is true and no read was made. -/
theorem reset_bootstrap (kinDynWrapper : WalkingFK) (port : Nat → Option (List ℚ))
    (c : RetargetingClient) (h : ResetOK kinDynWrapper port c) :
    ∃ ok c2 reads, reset kinDynWrapper port c = some (ok, c2, reads) ∧
      (c.m_useCoMHeightRetargeting = true →
        (ok = true ↔ ∃ k, k < 100 ∧ (port k).isSome = true) ∧
        (ok = true → ∃ k v, k < 100 ∧ port k = some v ∧ (∀ k2, k2 < k → port k2 = none) ∧
          vectorAt v 2 = some c2.m_comHeightInputOffset ∧ reads = k + 1) ∧
        (ok = false → reads = 100)) ∧
      (c.m_useCoMHeightRetargeting = false → ok = true ∧ reads = 0) := by
  obtain ⟨c1, e1⟩ := reset_reaches_loop kinDynWrapper port c h
  rcases Bool.eq_false_or_eq_true c.m_useCoMHeightRetargeting with uc | uc
  · rw [if_pos uc] at e1
    obtain ⟨ok, c2, reads, e2, ht, hf⟩ := resetCoMHeightLoop_spec port c1 99 0
      (fun k _ h2 => (h.2.2.2 uc).2.2 k (by omega))
    refine ⟨ok, c2, reads, by rw [e1, e2], ?_, ?_⟩
    · intro _
      refine ⟨⟨?_, ?_⟩, ?_, ?_⟩
      · intro hok
        obtain ⟨k, v, z, _, h2, h3, _⟩ := ht hok
        exact ⟨k, by omega, by simp [h3]⟩
      · rintro ⟨k, hk, hs⟩
        cases ok with
        | true => rfl
        | false =>
          have := (hf rfl).1 k (by omega) (by omega)
          rw [this] at hs
          simp at hs
      · intro hok
        obtain ⟨k, v, z, _, h2, h3, h4, h5, h6, h7⟩ := ht hok
        refine ⟨k, v, by omega, h3, fun k2 hk2 => h4 k2 (by omega) hk2, ?_, h7⟩
        rw [h5, h6]
      · intro hok
        have := (hf hok).2.2
        omega
    · intro hu
      rw [uc] at hu
      exact absurd hu (by decide)
  · rw [if_neg (by simp [uc])] at e1
    refine ⟨true, c1, 0, e1, ?_, fun _ => ⟨rfl, rfl⟩⟩
    intro hu
    rw [uc] at hu
    exact absurd hu (by decide)

/-- Witness of C8 on the CoM-height client. With a port that delivers its first sample, of
height 1/4, at the read number 3, `reset` returns true, the input offset is 1/4 and four
reads were made. With a port that never delivers, `reset` returns false after 100 reads and
the input offset is the one of before, 1/10. -/
theorem reset_bootstrap_witness :
    (∃ ok c2 reads, reset sampleFK (portFrom 3 (1/4)) (comClient Phase.stance)
        = some (ok, c2, reads) ∧ ok = true ∧ reads ≤ 100) ∧
    (reset sampleFK (portFrom 3 (1/4)) (comClient Phase.stance)).map
        (fun r => (r.1, r.2.1.m_comHeightInputOffset, r.2.2)) = some (true, 1/4, 4) ∧
    (reset sampleFK silentPort (comClient Phase.stance)).map
        (fun r => (r.1, r.2.1.m_comHeightInputOffset, r.2.2)) = some (false, 1/10, 100) := by
  have ok : ResetOK sampleFK (portFrom 3 (1/4)) (comClient Phase.stance) := by
    refine ⟨by simp [comClient], rfl, by simp [comClient], fun _ => ⟨by simp [comClient,
      sampleElement], rfl, ?_⟩⟩
    intro k _ v hv
    unfold portFrom at hv
    split at hv
    · simp at hv
    · simp at hv
      subst hv
      simp
  obtain ⟨ok, c2, reads, e, h1, -⟩ := reset_bootstrap sampleFK (portFrom 3 (1/4))
    (comClient Phase.stance) ok
  obtain ⟨hiff, hs, -⟩ := h1 rfl
  have hok : ok = true := hiff.2 ⟨3, by omega, rfl⟩
  obtain ⟨k, v, hk, _, _, _, hr⟩ := hs hok
  exact ⟨⟨ok, c2, reads, e, hok, by omega⟩, by rfl, by rfl⟩

/-! ## Entering the approach phase through setPhase -/

theorem setPhase_approaching_core (c : RetargetingClient) (now : ℚ)
    (hany : c.anyChannel = true) (hr : SmoothersReady c) :
    ∃ c2, setPhase Phase.approacing now c = some c2 ∧ AllRetunedApproaching c c2 ∧
      c2 = { c with m_leftHand := c2.m_leftHand, m_rightHand := c2.m_rightHand,
                    m_jointRetargeting := c2.m_jointRetargeting, m_comHeight := c2.m_comHeight,
                    m_startingApproachingPhaseTime := now, m_phase := Phase.approacing } ∧
      SmoothersReady c2 ∧ c2.anyChannel = true := by
  obtain ⟨c1, e1, r1, f1⟩ := startApproachingPhase_spec now c hr
  rw [hany, if_pos rfl] at f1
  have flags1 : c1.m_useHandRetargeting = c.m_useHandRetargeting ∧
      c1.m_useJointRetargeting = c.m_useJointRetargeting ∧
      c1.m_useCoMHeightRetargeting = c.m_useCoMHeightRetargeting := by
    rw [f1]; exact ⟨rfl, rfl, rfl⟩
  have any1 : c1.anyChannel = true := by
    unfold RetargetingClient.anyChannel at hany ⊢
    rw [flags1.1, flags1.2.1, flags1.2.2]; exact hany
  have ready1 : SmoothersReady c1 := by
    obtain ⟨a1, a2, a3⟩ := r1
    refine ⟨fun hu => ?_, fun hu => ?_, fun hu => ?_⟩
    · rw [flags1.1] at hu
      rw [if_pos hu] at a1
      obtain ⟨⟨g, _, ea⟩, ⟨g2, _, eb⟩⟩ := a1
      rw [ea, eb]; exact ⟨rfl, rfl⟩
    · rw [flags1.2.1] at hu
      rw [if_pos hu] at a2
      obtain ⟨g, _, ea⟩ := a2
      rw [ea]; rfl
    · rw [flags1.2.2] at hu
      rw [if_pos hu] at a3
      obtain ⟨g, _, ea⟩ := a3
      rw [ea]; rfl
  refine ⟨{ c1 with m_phase := Phase.approacing }, ?_, r1, ?_, ready1, any1⟩
  · rw [setPhase_approacing_eq, e1]; rfl
  · rw [f1]

/-- Claim C9. In a state with at least one of hand, joint and CoM-height retargeting enabled
(and the smoothers of the enabled channels in place), whatever the phase,
`setPhase approacing` at clock reading `now` returns a state `c2` with
`m_startingApproachingPhaseTime = now`, every enabled channel retuned to its approach
constant, phase `approacing`, and nothing else changed. A second call at the same clock
reading returns a state with the same member variables as `c2`; a second call at a later
clock reading returns a state that differs from `c2` in `m_startingApproachingPhaseTime`
alone. (The comparison leaves out the history variable that counts the `setT` calls.) -/
theorem setPhase_approaching (c : RetargetingClient) (now : ℚ)
    (hany : c.anyChannel = true) (hr : SmoothersReady c) :
    ∃ c2, setPhase Phase.approacing now c = some c2 ∧
      c2.m_startingApproachingPhaseTime = now ∧ c2.m_phase = Phase.approacing ∧
      AllRetunedApproaching c c2 ∧ TimeConstantsApproaching c2 ∧
      c2 = { c with m_leftHand := c2.m_leftHand, m_rightHand := c2.m_rightHand,
                    m_jointRetargeting := c2.m_jointRetargeting, m_comHeight := c2.m_comHeight,
                    m_startingApproachingPhaseTime := now, m_phase := Phase.approacing } ∧
      (∃ c3, setPhase Phase.approacing now c2 = some c3 ∧ c3.forgetCalls = c2.forgetCalls) ∧
      (∀ later, ∃ c3, setPhase Phase.approacing later c2 = some c3 ∧
        c3.forgetCalls = { c2 with m_startingApproachingPhaseTime := later }.forgetCalls) := by
  obtain ⟨c2, e2, r2, f2, ready2, any2⟩ := setPhase_approaching_core c now hany hr
  have flags2 : c2.m_useHandRetargeting = c.m_useHandRetargeting ∧
      c2.m_useJointRetargeting = c.m_useJointRetargeting ∧
      c2.m_useCoMHeightRetargeting = c.m_useCoMHeightRetargeting := by
    rw [f2]; exact ⟨rfl, rfl, rfl⟩
  have hstart : c2.m_startingApproachingPhaseTime = now := by rw [f2]
  have hphase : c2.m_phase = Phase.approacing := by rw [f2]
  have second : ∀ later, ∃ c3, setPhase Phase.approacing later c2 = some c3 ∧
      c3.forgetCalls = { c2 with m_startingApproachingPhaseTime := later }.forgetCalls := by
    intro later
    obtain ⟨c3, e3, r3, f3, -, -⟩ := setPhase_approaching_core c2 later any2 ready2
    obtain ⟨g1, g2, g3, g4⟩ := allRetunedApproaching_again r2 r3 flags2
    refine ⟨c3, e3, ?_⟩
    rw [f3]
    simp only [RetargetingClient.forgetCalls, g1, g2, g3, g4, hphase]
  refine ⟨c2, e2, hstart, hphase, r2, allRetunedApproaching_timeConstants r2 flags2, f2, ?_,
    second⟩
  obtain ⟨c3, e3, f3⟩ := second now
  refine ⟨c3, e3, ?_⟩
  rw [f3]
  have : ({ c2 with m_startingApproachingPhaseTime := now } : RetargetingClient) = c2 := by
    rw [← hstart]
  rw [this]

/-- Witness of C9 on the CoM-height client in the walking phase, its smoother at the walking
constant 1/2: `setPhase approacing` at time 20 sets the timer to 20, the time constant to
the approach constant 2 and the phase to `approacing`. -/
theorem setPhase_approaching_witness :
    (setPhase Phase.approacing 20 comClientWalking).map
        (fun c => (c.m_startingApproachingPhaseTime, c.m_comHeight.timeConstant, c.m_phase))
      = some (20, some 2, Phase.approacing) ∧
    ∃ c2, setPhase Phase.approacing 20 comClientWalking = some c2 ∧
      ∃ c3, setPhase Phase.approacing 20 c2 = some c3 ∧ c3.forgetCalls = c2.forgetCalls := by
  obtain ⟨c2, e, -, -, -, -, -, h, -⟩ :=
    setPhase_approaching comClientWalking 20 rfl (by decide)
  exact ⟨by rfl, c2, e, h⟩

/-! ## The approach phase with no retargeting enabled -/

/-- Claim C10, evaluated with no retargeting enabled. After construction and a start-up with
the null configuration (or with a configuration whose flags are all absent) no feature is
enabled, yet `isApproachingPhase` is true: the phase is `approacing` from construction on and
the start-up does not touch it. This holds whatever the values of the members without
initializer. On the new client, whose timer and duration read 0, the tick at time 1 performs
the expiry transition to `stance`; and `setPhase approacing` at time 50 makes
`isApproachingPhase` true again without starting the timer, so that the tick at time 51
performs the expiry transition once more. The differences 1 - 0 and 51 - 0 of the two
checks do not round. -/
theorem approach_phase_runs_without_retargeting :
    (∀ (junk : RetargetingClient) (name : String) (period : ℚ) (names : List String),
      ( RetargetingClient.initialize nullConfig name period names (freshClient junk)).1 = true ∧
      ( RetargetingClient.initialize nullConfig name period names
          (freshClient junk)).2.anyChannel = false ∧
      ( RetargetingClient.initialize nullConfig name period names
          (freshClient junk)).2.m_useVirtualizer = false ∧
      isApproachingPhase ( RetargetingClient.initialize nullConfig name period names
          (freshClient junk)).2 = true) ∧
    (∀ (junk : RetargetingClient) (name : String) (period : ℚ) (names : List String),
      ( RetargetingClient.initialize emptyConfig name period names (freshClient junk)).1 = true ∧
      ( RetargetingClient.initialize emptyConfig name period names
          (freshClient junk)).2.anyChannel = false ∧
      ( RetargetingClient.initialize emptyConfig name period names
          (freshClient junk)).2.m_useVirtualizer = false ∧
      isApproachingPhase ( RetargetingClient.initialize emptyConfig name period names
          (freshClient junk)).2 = true) ∧
    (getFeedback exactArithmetic jumpLaw noReads 1
        ( RetargetingClient.initialize nullConfig "walking" (1/100) [] newClient).2).map
      (fun c => c.m_phase) = some Phase.stance ∧
    (((getFeedback exactArithmetic jumpLaw noReads 1
        ( RetargetingClient.initialize nullConfig "walking" (1/100) [] newClient).2).bind
      (setPhase Phase.approacing 50)).map
      (fun c => (isApproachingPhase c, c.m_startingApproachingPhaseTime))) = some (true, 0) ∧
    (((getFeedback exactArithmetic jumpLaw noReads 1
        ( RetargetingClient.initialize nullConfig "walking" (1/100) [] newClient).2).bind
      (setPhase Phase.approacing 50)).bind (getFeedback exactArithmetic jumpLaw noReads 51)).map
      (fun c => c.m_phase) = some Phase.stance := by
  refine ⟨fun junk name period names => ⟨rfl, rfl, rfl, rfl⟩,
    fun junk name period names => ⟨rfl, rfl, rfl, rfl⟩, ?_, ?_, ?_⟩
  all_goals
    norm_num [getFeedback, getFeedbackHands, getFeedbackJoints, getFeedbackCoMHeight,
      getFeedbackCheckApproaching, stopApproachingPhase, startApproachingPhase, setPhase,
      isApproachingPhase, RetargetingClient.initialize, nullConfig, emptyConfig, newClient,
      freshClient, bareElement, exactArithmetic]

/-! ## Lemmas on the start-up -/

theorem initializeHand_ok (option : HandRetargetingGroup) (name : String) (period : ℚ)
    (portName : Option String) (hand : RetargetingElement Transform)
    (h : (initializeHand option name period portName hand).1 = true) :
    Configured option.smoothing_time_approaching option.smoothing_time_walking
      (initializeHand option name period portName hand).2 := by
  cases portName with
  | none => simp [initializeHand] at h
  | some pn =>
    cases ha : option.smoothing_time_approaching <;>
      cases hw : option.smoothing_time_walking <;>
      simp [initializeHand, ha, hw, Configured, RetargetingElement.timeConstant,
        minJerkTrajGen.create] at h ⊢

theorem initializeHands_ok (config : Searchable) (name : String) (period : ℚ)
    (c : RetargetingClient) (h : (initializeHands config name period c).1 = true) :
    (initializeHands config name period c).2 =
      { c with m_leftHand := (initializeHands config name period c).2.m_leftHand,
               m_rightHand := (initializeHands config name period c).2.m_rightHand } ∧
    (c.m_useHandRetargeting = true →
      Configured config.HAND_RETARGETING.smoothing_time_approaching
        config.HAND_RETARGETING.smoothing_time_walking
        (initializeHands config name period c).2.m_leftHand ∧
      Configured config.HAND_RETARGETING.smoothing_time_approaching
        config.HAND_RETARGETING.smoothing_time_walking
        (initializeHands config name period c).2.m_rightHand) := by
  unfold initializeHands at h ⊢
  by_cases hu : c.m_useHandRetargeting = true
  · rw [if_pos hu] at h ⊢
    by_cases hl : (initializeHand config.HAND_RETARGETING name period
        config.HAND_RETARGETING.left_hand_transform_port_name c.m_leftHand).1 = true
    · simp only [hl, if_true] at h ⊢
      exact ⟨trivial, fun _ => ⟨initializeHand_ok _ _ _ _ _ hl, initializeHand_ok _ _ _ _ _ h⟩⟩
    · simp [hl] at h
  · rw [if_neg hu]
    exact ⟨rfl, fun hu2 => absurd hu2 hu⟩

theorem initializeJoints_ok (config : Searchable) (name : String) (period : ℚ)
    (names : List String) (c : RetargetingClient)
    (h : (initializeJoints config name period names c).1 = true) :
    (initializeJoints config name period names c).2 =
      { c with
          m_retargetJointsIndex :=
            (initializeJoints config name period names c).2.m_retargetJointsIndex,
          m_jointRetargeting :=
            (initializeJoints config name period names c).2.m_jointRetargeting } ∧
    (c.m_useJointRetargeting = true →
      Configured config.JOINT_RETARGETING.smoothing_time_approaching
        config.JOINT_RETARGETING.smoothing_time_walking
        (initializeJoints config name period names c).2.m_jointRetargeting) := by
  unfold initializeJoints at h ⊢
  by_cases hu : c.m_useJointRetargeting = true
  · rw [if_pos hu] at h ⊢
    rcases hl : config.JOINT_RETARGETING.retargeting_joint_list with _ | _ | l <;>
      rcases hp : config.JOINT_RETARGETING.joint_retargeting_port_name with _ | pn <;>
      rcases ha : config.JOINT_RETARGETING.smoothing_time_approaching with _ | a <;>
      rcases hw : config.JOINT_RETARGETING.smoothing_time_walking with _ | w <;>
      simp [hl, hp, ha, hw, Configured, RetargetingElement.timeConstant,
        minJerkTrajGen.create] at h ⊢
  · rw [if_neg hu]
    exact ⟨rfl, fun hu2 => absurd hu2 hu⟩

theorem initializeVirtualizer_ok (config : Searchable) (name : String) (c : RetargetingClient) :
    (initializeVirtualizer config name c).2 =
      { c with m_robotOrientationPort :=
          (initializeVirtualizer config name c).2.m_robotOrientationPort } := by
  unfold initializeVirtualizer
  by_cases hu : c.m_useVirtualizer = true
  · rw [if_pos hu]
    cases config.VIRTUALIZER.robot_orientation_port_name <;> rfl
  · rw [if_neg hu]

theorem initializeCoMHeight_ok (config : Searchable) (name : String) (period : ℚ)
    (c : RetargetingClient) (h : (initializeCoMHeight config name period c).1 = true) :
    (initializeCoMHeight config name period c).2 =
      { c with
          m_comHeight := (initializeCoMHeight config name period c).2.m_comHeight,
          m_comHeightScalingFactor :=
            (initializeCoMHeight config name period c).2.m_comHeightScalingFactor } ∧
    (c.m_useCoMHeightRetargeting = true →
      Configured config.COM_RETARGETING.smoothing_time_approaching
        config.COM_RETARGETING.smoothing_time_walking
        (initializeCoMHeight config name period c).2.m_comHeight) := by
  unfold initializeCoMHeight at h ⊢
  by_cases hu : c.m_useCoMHeightRetargeting = true
  · rw [if_pos hu] at h ⊢
    rcases hp : config.COM_RETARGETING.com_height_retargeting_port_name with _ | pn <;>
      rcases ha : config.COM_RETARGETING.smoothing_time_approaching with _ | a <;>
      rcases hw : config.COM_RETARGETING.smoothing_time_walking with _ | w <;>
      rcases hf : config.COM_RETARGETING.com_height_scaling_factor with _ | f <;>
      simp [hp, ha, hw, hf, Configured, RetargetingElement.timeConstant,
        minJerkTrajGen.create] at h ⊢
  · rw [if_neg hu]
    exact ⟨rfl, fun hu2 => absurd hu2 hu⟩

theorem outcome_andThen_ok (o : Outcome) (f : RetargetingClient → Outcome)
    (h : (Outcome.andThen o f).1 = true) : o.1 = true ∧ Outcome.andThen o f = f o.2 := by
  unfold Outcome.andThen at h ⊢
  by_cases ho : o.1 = true
  · rw [if_pos ho]
    exact ⟨ho, rfl⟩
  · rw [if_neg ho] at h
    exact absurd h ho

theorem initialize_chain_ok (config : Searchable) (name : String) (period : ℚ)
    (names : List String) (c : RetargetingClient)
    (h : (Outcome.andThen (Outcome.andThen (Outcome.andThen
            (initializeHands config name period c)
            (initializeJoints config name period names))
            (initializeVirtualizer config name))
            (initializeCoMHeight config name period)).1 = true) :
    Started config (Outcome.andThen (Outcome.andThen (Outcome.andThen
            (initializeHands config name period c)
            (initializeJoints config name period names))
            (initializeVirtualizer config name))
            (initializeCoMHeight config name period)).2 ∧
    (Outcome.andThen (Outcome.andThen (Outcome.andThen
            (initializeHands config name period c)
            (initializeJoints config name period names))
            (initializeVirtualizer config name))
            (initializeCoMHeight config name period)).2.m_phase = c.m_phase ∧
    (Outcome.andThen (Outcome.andThen (Outcome.andThen
            (initializeHands config name period c)
            (initializeJoints config name period names))
            (initializeVirtualizer config name))
            (initializeCoMHeight config name period)).2.m_useHandRetargeting
      = c.m_useHandRetargeting ∧
    (Outcome.andThen (Outcome.andThen (Outcome.andThen
            (initializeHands config name period c)
            (initializeJoints config name period names))
            (initializeVirtualizer config name))
            (initializeCoMHeight config name period)).2.m_useJointRetargeting
      = c.m_useJointRetargeting ∧
    (Outcome.andThen (Outcome.andThen (Outcome.andThen
            (initializeHands config name period c)
            (initializeJoints config name period names))
            (initializeVirtualizer config name))
            (initializeCoMHeight config name period)).2.m_useCoMHeightRetargeting
      = c.m_useCoMHeightRetargeting := by
  obtain ⟨h3, e4⟩ := outcome_andThen_ok _ _ h
  obtain ⟨h2, e3⟩ := outcome_andThen_ok _ _ h3
  obtain ⟨h1, e2⟩ := outcome_andThen_ok _ _ h2
  rw [e4] at h ⊢
  rw [e3] at h ⊢
  rw [e2] at h h2 ⊢
  obtain ⟨f1, k1⟩ := initializeHands_ok config name period c h1
  generalize (initializeHands config name period c).2 = c1 at *
  obtain ⟨f2, k2⟩ := initializeJoints_ok config name period names c1 h2
  generalize (initializeJoints config name period names c1).2 = c2 at *
  have f3 := initializeVirtualizer_ok config name c2
  generalize (initializeVirtualizer config name c2).2 = c3 at *
  obtain ⟨f4, k4⟩ := initializeCoMHeight_ok config name period c3 h
  generalize (initializeCoMHeight config name period c3).2 = c4 at *
  have u1 : c1.m_useJointRetargeting = c.m_useJointRetargeting ∧
      c1.m_useCoMHeightRetargeting = c.m_useCoMHeightRetargeting ∧ c1.m_phase = c.m_phase := by
    rw [f1]; exact ⟨rfl, rfl, rfl⟩
  have u2 : c2.m_useHandRetargeting = c1.m_useHandRetargeting ∧
      c2.m_useCoMHeightRetargeting = c1.m_useCoMHeightRetargeting ∧ c2.m_phase = c1.m_phase ∧
      c2.m_leftHand = c1.m_leftHand ∧ c2.m_rightHand = c1.m_rightHand := by
    rw [f2]; exact ⟨rfl, rfl, rfl, rfl, rfl⟩
  have u3 : c3.m_useHandRetargeting = c2.m_useHandRetargeting ∧
      c3.m_useJointRetargeting = c2.m_useJointRetargeting ∧
      c3.m_useCoMHeightRetargeting = c2.m_useCoMHeightRetargeting ∧ c3.m_phase = c2.m_phase ∧
      c3.m_leftHand = c2.m_leftHand ∧ c3.m_rightHand = c2.m_rightHand ∧
      c3.m_jointRetargeting = c2.m_jointRetargeting := by
    rw [f3]; exact ⟨rfl, rfl, rfl, rfl, rfl, rfl, rfl⟩
  have u4 : c4.m_useHandRetargeting = c3.m_useHandRetargeting ∧
      c4.m_useJointRetargeting = c3.m_useJointRetargeting ∧
      c4.m_useCoMHeightRetargeting = c3.m_useCoMHeightRetargeting ∧ c4.m_phase = c3.m_phase ∧
      c4.m_leftHand = c3.m_leftHand ∧ c4.m_rightHand = c3.m_rightHand ∧
      c4.m_jointRetargeting = c3.m_jointRetargeting := by
    rw [f4]; exact ⟨rfl, rfl, rfl, rfl, rfl, rfl, rfl⟩
  have w1 : c1.m_useHandRetargeting = c.m_useHandRetargeting := by rw [f1]
  have w2 : c2.m_useJointRetargeting = c1.m_useJointRetargeting := by rw [f2]
  refine ⟨⟨fun hu => ?_, fun hu => ?_, fun hu => ?_⟩, ?_, ?_, ?_, ?_⟩
  · rw [u4.2.2.2.2.1, u4.2.2.2.2.2.1, u3.2.2.2.2.1, u3.2.2.2.2.2.1, u2.2.2.2.1, u2.2.2.2.2]
    rw [u4.1, u3.1, u2.1, w1] at hu
    exact k1 hu
  · rw [u4.2.2.2.2.2.2, u3.2.2.2.2.2.2]
    rw [u4.2.1, u3.2.1, w2] at hu
    exact k2 hu
  · rw [u4.2.2.1] at hu
    exact k4 hu
  · rw [u4.2.2.2.1, u3.2.2.2.1, u2.2.2.1, u1.2.2]
  · rw [u4.1, u3.1, u2.1, w1]
  · rw [u4.2.1, u3.2.1, w2, u1.1]
  · rw [u4.2.2.1, u3.2.2.1, u2.2.1, u1.2.1]

theorem initialize_started_core (config : Searchable) (name : String) (period : ℚ)
    (names : List String) (c : RetargetingClient)
    (h : ( RetargetingClient.initialize config name period names c).1 = true) :
    Started config ( RetargetingClient.initialize config name period names c).2 ∧
    ( RetargetingClient.initialize config name period names c).2.m_phase = c.m_phase ∧
    (config.isNull = false →
      ( RetargetingClient.initialize config name period names c).2.m_useHandRetargeting
        = config.use_hand_retargeting.getD false ∧
      ( RetargetingClient.initialize config name period names c).2.m_useJointRetargeting
        = config.use_joint_retargeting.getD false ∧
      ( RetargetingClient.initialize config name period names c).2.m_useCoMHeightRetargeting
        = config.use_com_retargeting.getD false) := by
  unfold RetargetingClient.initialize at h ⊢
  by_cases hn : config.isNull = true
  · rw [if_pos hn]
    exact ⟨⟨fun hu => absurd hu (by simp), fun hu => absurd hu (by simp),
      fun hu => absurd hu (by simp)⟩, rfl, fun hf => absurd (hn.symm.trans hf) (by decide)⟩
  · rw [if_neg hn] at h ⊢
    dsimp only at h ⊢
    split at h
    · simp at h
    · rename_i hboth
      rw [if_neg hboth]
      split at h
      · rename_i hnone
        rw [if_pos hnone]
        simp only [Bool.and_eq_true, Bool.not_eq_true', Bool.not_eq_eq_eq_not,
          Bool.not_true] at hnone
        exact ⟨⟨fun hu => absurd hu (by simp [hnone.1.1.1]),
          fun hu => absurd hu (by simp [hnone.1.2]),
          fun hu => absurd hu (by simp [hnone.2])⟩, rfl, fun _ => ⟨rfl, rfl, rfl⟩⟩
      · rename_i hsome
        rw [if_neg hsome]
        cases hd : config.approaching_phase_duration with
        | none => simp [hd] at h
        | some d =>
          simp only [hd] at h ⊢
          obtain ⟨k1, k2, k3, k4, k5⟩ := initialize_chain_ok config name period names _ h
          exact ⟨k1, k2, fun _ => ⟨k3, k4, k5⟩⟩

/-! ## Start-up: the smoothing times -/

/-- Claim C11 as stated fails: CoM-height retargeting is configured with the smoothing time -1
for the approach and 0 for walking, both non-positive. The start-up of a new client returns
true, the channel is enabled, and its two time constants are -1 and 0, neither of them
positive. -/
theorem initialize_accepts_nonpositive_times :
    ( RetargetingClient.initialize (comConfig (-1) 0) "walking" (1/100) [] newClient).1 = true ∧
    ( RetargetingClient.initialize (comConfig (-1) 0) "walking" (1/100) []
        newClient).2.m_useCoMHeightRetargeting = true ∧
    ( RetargetingClient.initialize (comConfig (-1) 0) "walking" (1/100) []
        newClient).2.m_comHeight.smoothingTimeInApproaching = -1 ∧
    ( RetargetingClient.initialize (comConfig (-1) 0) "walking" (1/100) []
        newClient).2.m_comHeight.smoothingTimeInWalking = 0 ∧
    ¬ (0 < ( RetargetingClient.initialize (comConfig (-1) 0) "walking" (1/100) []
        newClient).2.m_comHeight.smoothingTimeInApproaching) ∧
    ¬ (0 < ( RetargetingClient.initialize (comConfig (-1) 0) "walking" (1/100) []
        newClient).2.m_comHeight.smoothingTimeInWalking) := by
  have ha : ( RetargetingClient.initialize (comConfig (-1) 0) "walking" (1/100) []
      newClient).2.m_comHeight.smoothingTimeInApproaching = -1 := rfl
  have hw : ( RetargetingClient.initialize (comConfig (-1) 0) "walking" (1/100) []
      newClient).2.m_comHeight.smoothingTimeInWalking = 0 := rfl
  refine ⟨rfl, rfl, ha, hw, ?_, ?_⟩
  · rw [ha]; norm_num
  · rw [hw]; norm_num

/-- Claim C11, amended. The start-up checks that the smoothing times are present, not their
sign. If it returns true, then for every enabled channel (left hand, right hand, joints,
CoM height) the keys `smoothing_time_approaching` and `smoothing_time_walking` of the group of
the channel are present, the two time constants of the channel are the configured values,
and the smoother of the channel runs with the approach constant. For a configuration that
is not null and enables a channel of whose group one of the two keys is missing, the
start-up returns false. -/
theorem initialize_time_constants (config : Searchable) (name : String) (period : ℚ)
    (names : List String) (c : RetargetingClient) :
    (( RetargetingClient.initialize config name period names c).1 = true →
      Started config ( RetargetingClient.initialize config name period names c).2) ∧
    (config.isNull = false →
      (config.use_hand_retargeting = some true ∧
          (config.HAND_RETARGETING.smoothing_time_approaching = none ∨
            config.HAND_RETARGETING.smoothing_time_walking = none)) ∨
        (config.use_joint_retargeting = some true ∧
          (config.JOINT_RETARGETING.smoothing_time_approaching = none ∨
            config.JOINT_RETARGETING.smoothing_time_walking = none)) ∨
        (config.use_com_retargeting = some true ∧
          (config.COM_RETARGETING.smoothing_time_approaching = none ∨
            config.COM_RETARGETING.smoothing_time_walking = none)) →
      ( RetargetingClient.initialize config name period names c).1 = false) := by
  constructor
  · intro h
    exact (initialize_started_core config name period names c h).1
  · intro hn hmiss
    by_contra hne
    have h : ( RetargetingClient.initialize config name period names c).1 = true := by
      simpa using hne
    obtain ⟨⟨s1, s2, s3⟩, -, hf⟩ := initialize_started_core config name period names c h
    obtain ⟨f1, f2, f3⟩ := hf hn
    rcases hmiss with ⟨hu, hk⟩ | ⟨hu, hk⟩ | ⟨hu, hk⟩
    · obtain ⟨⟨a, w, -⟩, -⟩ := s1 (by rw [f1, hu]; rfl)
      rcases hk with hk | hk
      · rw [hk] at a; exact absurd a (by simp)
      · rw [hk] at w; exact absurd w (by simp)
    · obtain ⟨a, w, -⟩ := s2 (by rw [f2, hu]; rfl)
      rcases hk with hk | hk
      · rw [hk] at a; exact absurd a (by simp)
      · rw [hk] at w; exact absurd w (by simp)
    · obtain ⟨a, w, -⟩ := s3 (by rw [f3, hu]; rfl)
      rcases hk with hk | hk
      · rw [hk] at a; exact absurd a (by simp)
      · rw [hk] at w; exact absurd w (by simp)

/-- Witness of C11 amended: with the smoothing times 2 and 1/2 the start-up of a new client
succeeds and the CoM-height channel has the time constants 2 and 1/2, its smoother running
with 2; without the key `smoothing_time_walking` the start-up returns false. -/
theorem initialize_time_constants_witness :
    (( RetargetingClient.initialize (comConfig 2 (1/2)) "walking" (1/100) [] newClient).1 = true ∧
      Started (comConfig 2 (1/2))
        ( RetargetingClient.initialize (comConfig 2 (1/2)) "walking" (1/100) [] newClient).2 ∧
      ( RetargetingClient.initialize (comConfig 2 (1/2)) "walking" (1/100) []
        newClient).2.m_comHeight.timeConstant = some 2) ∧
    ( RetargetingClient.initialize comConfigNoWalking "walking" (1/100) [] newClient).1
      = false :=
  ⟨⟨rfl, (initialize_time_constants (comConfig 2 (1/2)) "walking" (1/100) [] newClient).1 rfl,
      rfl⟩,
    (initialize_time_constants comConfigNoWalking "walking" (1/100) [] newClient).2 rfl
      (Or.inr (Or.inr ⟨rfl, Or.inr rfl⟩))⟩

/-! ## Lemmas on calls that return -/

theorem getHandFeedback_of_some {law : FilterLaw} {read : Option (List ℚ)}
    {hand h2 : RetargetingElement Transform} (h : getHandFeedback law read hand = some h2) :
    SameTuning hand h2 := by
  unfold getHandFeedback at h
  cases read <;> cases hs : hand.smoother <;>
    simp [hs, Option.bind_eq_some, minJerkTrajGen.computeNextValues] at h
  all_goals
    obtain ⟨d, -, e⟩ := h
    rw [← e]
    simp [SameTuning, hs]

theorem getFeedbackHands_of_some {law : FilterLaw} {reads : PortReads}
    {c c1 : RetargetingClient} (h : getFeedbackHands law reads c = some c1) :
    ∃ l r, c1 = { c with m_leftHand := l, m_rightHand := r } ∧
      SameTuning c.m_leftHand l ∧ SameTuning c.m_rightHand r := by
  unfold getFeedbackHands at h
  by_cases hu : c.m_useHandRetargeting = true
  · rw [if_pos hu] at h
    cases hl : getHandFeedback law reads.leftHand c.m_leftHand with
    | none => simp [hl] at h
    | some l =>
      cases hr : getHandFeedback law reads.rightHand c.m_rightHand with
      | none => simp [hl, hr] at h
      | some r =>
        simp [hl, hr] at h
        exact ⟨l, r, h.symm, getHandFeedback_of_some hl, getHandFeedback_of_some hr⟩
  · rw [if_neg hu] at h
    simp at h
    exact ⟨c.m_leftHand, c.m_rightHand, by rw [← h], sameTuning_refl _, sameTuning_refl _⟩

theorem getFeedbackJoints_of_some {law : FilterLaw} {reads : PortReads}
    {c c1 : RetargetingClient} (h : getFeedbackJoints law reads c = some c1) :
    ∃ j, c1 = { c with m_jointRetargeting := j } ∧ SameTuning c.m_jointRetargeting j := by
  unfold getFeedbackJoints at h
  by_cases hu : c.m_useJointRetargeting = true
  · rw [if_pos hu] at h
    cases hs : c.m_jointRetargeting.smoother with
    | none => simp [hs, Option.bind_eq_some] at h
    | some g =>
      simp only [hs, Option.bind_eq_bind, Option.bind_eq_some, Option.some.injEq,
        exists_eq_left'] at h
      obtain ⟨buffer, -, h⟩ := h
      split at h
      · simp only [Option.pure_def, Option.some.injEq] at h
        exact ⟨_, h.symm, by simp [SameTuning, hs, minJerkTrajGen.computeNextValues]⟩
      · simp at h
  · rw [if_neg hu] at h
    simp at h
    exact ⟨c.m_jointRetargeting, by rw [← h], sameTuning_refl _⟩

theorem getFeedbackCoMHeight_of_some {ar : DoubleArithmetic} {law : FilterLaw} {reads : PortReads}
    {c c1 : RetargetingClient} (h : getFeedbackCoMHeight ar law reads c = some c1) :
    ∃ e, c1 = { c with m_comHeight := e } ∧ SameTuning c.m_comHeight e := by
  unfold getFeedbackCoMHeight at h
  by_cases hu : c.m_useCoMHeightRetargeting = true
  · rw [if_pos hu] at h
    cases hs : c.m_comHeight.smoother with
    | none => simp [hs, Option.bind_eq_some] at h
    | some g =>
      simp only [hs, Option.bind_eq_bind, Option.bind_eq_some, Option.some.injEq,
        exists_eq_left', Option.pure_def] at h
      obtain ⟨buffer, -, position, -, velocity, -, h⟩ := h
      exact ⟨_, h.symm, by simp [SameTuning, hs, minJerkTrajGen.computeNextValues]⟩
  · rw [if_neg hu] at h
    simp at h
    exact ⟨c.m_comHeight, by rw [← h], sameTuning_refl _⟩

theorem getFeedback_of_some {ar : DoubleArithmetic} {law : FilterLaw} {reads : PortReads}
    {now : ℚ}
    {c c2 : RetargetingClient} (h : getFeedback ar law reads now c = some c2) :
    ∃ l r j e, SameTuning c.m_leftHand l ∧ SameTuning c.m_rightHand r ∧
      SameTuning c.m_jointRetargeting j ∧ SameTuning c.m_comHeight e ∧
      getFeedbackCheckApproaching ar now
        { c with m_leftHand := l, m_rightHand := r, m_jointRetargeting := j, m_comHeight := e }
        = some c2 := by
  unfold getFeedback at h
  simp only [Option.bind_eq_bind, Option.bind_eq_some] at h
  obtain ⟨c1, h1, c3, h3, c4, h4, h5⟩ := h
  obtain ⟨l, r, e1, tl, tr⟩ := getFeedbackHands_of_some h1
  obtain ⟨j, e3, tj⟩ := getFeedbackJoints_of_some h3
  obtain ⟨e, e4, te⟩ := getFeedbackCoMHeight_of_some h4
  subst e1
  subst e3
  subst e4
  exact ⟨l, r, j, e, tl, tr, tj, te, h5⟩

/-! ## Lemmas on the consistency of phase and time constants -/

theorem allRetunedWalking_ready {c c2 : RetargetingClient} (h : AllRetunedWalking c c2)
    (hf : c2.m_useHandRetargeting = c.m_useHandRetargeting ∧
      c2.m_useJointRetargeting = c.m_useJointRetargeting ∧
      c2.m_useCoMHeightRetargeting = c.m_useCoMHeightRetargeting) :
    SmoothersReady c2 := by
  obtain ⟨a1, a2, a3⟩ := h
  obtain ⟨f1, f2, f3⟩ := hf
  refine ⟨fun hu => ?_, fun hu => ?_, fun hu => ?_⟩
  · rw [f1] at hu
    rw [if_pos hu] at a1
    obtain ⟨⟨g, _, ea⟩, ⟨g2, _, eb⟩⟩ := a1
    rw [ea, eb]; exact ⟨rfl, rfl⟩
  · rw [f2] at hu
    rw [if_pos hu] at a2
    obtain ⟨g, _, ea⟩ := a2
    rw [ea]; rfl
  · rw [f3] at hu
    rw [if_pos hu] at a3
    obtain ⟨g, _, ea⟩ := a3
    rw [ea]; rfl

theorem allRetunedApproaching_ready {c c2 : RetargetingClient}
    (h : AllRetunedApproaching c c2)
    (hf : c2.m_useHandRetargeting = c.m_useHandRetargeting ∧
      c2.m_useJointRetargeting = c.m_useJointRetargeting ∧
      c2.m_useCoMHeightRetargeting = c.m_useCoMHeightRetargeting) :
    SmoothersReady c2 := by
  obtain ⟨a1, a2, a3⟩ := h
  obtain ⟨f1, f2, f3⟩ := hf
  refine ⟨fun hu => ?_, fun hu => ?_, fun hu => ?_⟩
  · rw [f1] at hu
    rw [if_pos hu] at a1
    obtain ⟨⟨g, _, ea⟩, ⟨g2, _, eb⟩⟩ := a1
    rw [ea, eb]; exact ⟨rfl, rfl⟩
  · rw [f2] at hu
    rw [if_pos hu] at a2
    obtain ⟨g, _, ea⟩ := a2
    rw [ea]; rfl
  · rw [f3] at hu
    rw [if_pos hu] at a3
    obtain ⟨g, _, ea⟩ := a3
    rw [ea]; rfl

theorem timeConstantsApproaching_of_same {c c2 : RetargetingClient} (hs : SameSettings c c2)
    (ht : c2.timeConstants = c.timeConstants) (h : TimeConstantsApproaching c) :
    TimeConstantsApproaching c2 := by
  obtain ⟨⟨a1, _, a3, a4⟩, ⟨b1, _, b3, _, b5, _, b7, _⟩, _⟩ := hs
  simp only [RetargetingClient.timeConstants, List.cons.injEq, and_true] at ht
  obtain ⟨t1, t2, t3, t4⟩ := ht
  obtain ⟨h1, h2, h3⟩ := h
  refine ⟨fun hu => ?_, fun hu => ?_, fun hu => ?_⟩
  · rw [a1] at hu
    rw [t1, t2, b1, b3]
    exact h1 hu
  · rw [a3] at hu
    rw [t3, b5]
    exact h2 hu
  · rw [a4] at hu
    rw [t4, b7]
    exact h3 hu

theorem smoothersReady_of_sameTuning {c : RetargetingClient}
    {l r : RetargetingElement Transform} {j : RetargetingElement (List ℚ)}
    {e : RetargetingElement KinematicState} (h : SmoothersReady c)
    (tl : SameTuning c.m_leftHand l) (tr : SameTuning c.m_rightHand r)
    (tj : SameTuning c.m_jointRetargeting j) (te : SameTuning c.m_comHeight e) :
    SmoothersReady
      { c with m_leftHand := l, m_rightHand := r, m_jointRetargeting := j, m_comHeight := e } := by
  refine ⟨fun hu => ⟨?_, ?_⟩, fun hu => ?_, fun hu => ?_⟩
  · show l.smoother.isSome = true
    rw [sameTuning_isSome tl]; exact (h.1 hu).1
  · show r.smoother.isSome = true
    rw [sameTuning_isSome tr]; exact (h.1 hu).2
  · show j.smoother.isSome = true
    rw [sameTuning_isSome tj]; exact h.2.1 hu
  · show e.smoother.isSome = true
    rw [sameTuning_isSome te]; exact h.2.2 hu

theorem phaseConsistent_setPhase (phase : Phase) (now : ℚ) (c : RetargetingClient)
    (h : PhaseConsistent c) :
    ∃ c2, setPhase phase now c = some c2 ∧ PhaseConsistent c2 ∧ c2.m_phase = phase := by
  obtain ⟨hr, ha, hw⟩ := h
  by_cases hX : phase = Phase.approacing
  · subst hX
    obtain ⟨c1, e1, r1, f1⟩ := startApproachingPhase_spec now c hr
    have flags1 : c1.m_useHandRetargeting = c.m_useHandRetargeting ∧
        c1.m_useJointRetargeting = c.m_useJointRetargeting ∧
        c1.m_useCoMHeightRetargeting = c.m_useCoMHeightRetargeting := by
      rw [f1]; exact ⟨rfl, rfl, rfl⟩
    refine ⟨{ c1 with m_phase := Phase.approacing }, ?_, ⟨?_, ?_, ?_⟩, rfl⟩
    · rw [setPhase_approacing_eq, e1]; rfl
    · exact allRetunedApproaching_ready r1 flags1
    · intro _
      exact allRetunedApproaching_timeConstants r1 flags1
    · intro hp
      rcases hp with hp | hp <;> exact absurd hp (by simp)
  · by_cases hp : c.m_phase = Phase.approacing
    · obtain ⟨c1, e1, r1, f1⟩ := stopApproachingPhase_spec c hr
      have flags1 : c1.m_useHandRetargeting = c.m_useHandRetargeting ∧
          c1.m_useJointRetargeting = c.m_useJointRetargeting ∧
          c1.m_useCoMHeightRetargeting = c.m_useCoMHeightRetargeting := by
        rw [f1]; exact ⟨rfl, rfl, rfl⟩
      have hp1 : c1.m_phase = Phase.stance := by rw [f1]
      refine ⟨{ c1 with m_phase := phase }, ?_, ⟨?_, ?_, ?_⟩, rfl⟩
      · cases phase
        · exact absurd rfl hX
        · simp [setPhase, hp, e1]
        · simp [setPhase, hp, e1, hp1]
      · exact allRetunedWalking_ready r1 flags1
      · intro hq
        exact absurd hq hX
      · intro _
        exact allRetunedWalking_timeConstants r1 flags1
    · have hw2 : TimeConstantsWalking c := by
        apply hw
        cases hc : c.m_phase
        · exact absurd hc hp
        · exact Or.inl rfl
        · exact Or.inr rfl
      refine ⟨{ c with m_phase := phase }, by simp [setPhase, hX, hp], ⟨hr, ?_, fun _ => hw2⟩,
        rfl⟩
      intro hq
      exact absurd hq hX

theorem phaseConsistent_getFeedback (ar : DoubleArithmetic) (law : FilterLaw) (reads : PortReads)
    (now : ℚ)
    (c c2 : RetargetingClient) (h : PhaseConsistent c)
    (hrun : getFeedback ar law reads now c = some c2) : PhaseConsistent c2 := by
  obtain ⟨hr, ha, hw⟩ := h
  obtain ⟨l, r, j, e, tl, tr, tj, te, hc⟩ := getFeedback_of_some hrun
  have ready1 := smoothersReady_of_sameTuning hr tl tr tj te
  have same1 : SameSettings c
      { c with m_leftHand := l, m_rightHand := r, m_jointRetargeting := j, m_comHeight := e } :=
    sameSettings_of_channels (sameTuning_times tl) (sameTuning_times tr) (sameTuning_times tj)
      (sameTuning_times te) rfl
  have tc1 : ({ c with m_leftHand := l, m_rightHand := r, m_jointRetargeting := j,
                       m_comHeight := e } : RetargetingClient).timeConstants
      = c.timeConstants := by
    simp [RetargetingClient.timeConstants, sameTuning_timeConstant tl,
      sameTuning_timeConstant tr, sameTuning_timeConstant tj, sameTuning_timeConstant te]
  unfold getFeedbackCheckApproaching at hc
  by_cases hp : c.m_phase = Phase.approacing
  · by_cases hx : ar.sub now c.m_startingApproachingPhaseTime > c.m_approachPhaseDuration
    · rw [if_pos hp, if_pos hx] at hc
      obtain ⟨c3, e3, r3, f3⟩ := stopApproachingPhase_spec _ ready1
      have e23 : c2 = c3 := Option.some.inj (hc.symm.trans e3)
      subst e23
      have flags : c2.m_useHandRetargeting = c.m_useHandRetargeting ∧
          c2.m_useJointRetargeting = c.m_useJointRetargeting ∧
          c2.m_useCoMHeightRetargeting = c.m_useCoMHeightRetargeting := by
        rw [f3]; exact ⟨rfl, rfl, rfl⟩
      have hp2 : c2.m_phase = Phase.stance := by rw [f3]
      refine ⟨allRetunedWalking_ready r3 flags, ?_, fun _ =>
        allRetunedWalking_timeConstants r3 flags⟩
      intro hq
      rw [hp2] at hq
      exact absurd hq (by decide)
    · rw [if_pos hp, if_neg hx] at hc
      have e21 := Option.some.inj hc
      subst e21
      refine ⟨ready1, fun _ => timeConstantsApproaching_of_same same1 tc1 (ha hp), ?_⟩
      intro hq
      rcases hq with hq | hq
      · exact absurd (hp.symm.trans hq) (by decide)
      · exact absurd (hp.symm.trans hq) (by decide)
  · rw [if_neg hp] at hc
    have e21 := Option.some.inj hc
    subst e21
    exact ⟨ready1, fun hq => absurd hq hp, fun hq => timeConstantsWalking_of_same same1 tc1 (hw hq)⟩

theorem phaseConsistent_runCalls (ar : DoubleArithmetic) (law : FilterLaw) :
    ∀ (calls : List Call) (c c2 : RetargetingClient), PhaseConsistent c →
      runCalls ar law calls c = some c2 → PhaseConsistent c2
  | [], c, c2, h, hrun => by
    have e := Option.some.inj hrun
    subst e
    exact h
  | Call.setPhase phase now :: rest, c, c2, h, hrun => by
    obtain ⟨c1, e1, h1, -⟩ := phaseConsistent_setPhase phase now c h
    simp only [runCalls, runCall, e1, Option.some_bind] at hrun
    exact phaseConsistent_runCalls ar law rest c1 c2 h1 hrun
  | Call.getFeedback reads now :: rest, c, c2, h, hrun => by
    simp only [runCalls, runCall, Option.bind_eq_some] at hrun
    obtain ⟨c1, e1, hrest⟩ := hrun
    exact phaseConsistent_runCalls ar law rest c1 c2
      (phaseConsistent_getFeedback ar law reads now c c1 h e1) hrest

theorem phaseConsistent_initialize (config : Searchable) (name : String) (period : ℚ)
    (names : List String) (junk : RetargetingClient)
    (h : ( RetargetingClient.initialize config name period names (freshClient junk)).1 = true) :
    PhaseConsistent ( RetargetingClient.initialize config name period names
      (freshClient junk)).2 := by
  obtain ⟨⟨s1, s2, s3⟩, hp, -⟩ :=
    initialize_started_core config name period names (freshClient junk) h
  have hp2 : ( RetargetingClient.initialize config name period names
      (freshClient junk)).2.m_phase = Phase.approacing := hp
  have some_of : ∀ {Data : Type} (e : RetargetingElement Data) (t : ℚ),
      e.timeConstant = some t → e.smoother.isSome = true := by
    intro Data e t ht
    unfold RetargetingElement.timeConstant at ht
    cases hs : e.smoother with
    | none => rw [hs] at ht; simp at ht
    | some g => rfl
  refine ⟨⟨fun hu => ?_, fun hu => ?_, fun hu => ?_⟩, fun _ => ⟨fun hu => ?_, fun hu => ?_,
    fun hu => ?_⟩, fun hq => ?_⟩
  · exact ⟨some_of _ _ (s1 hu).1.2.2, some_of _ _ (s1 hu).2.2.2⟩
  · exact some_of _ _ (s2 hu).2.2
  · exact some_of _ _ (s3 hu).2.2
  · exact ⟨(s1 hu).1.2.2, (s1 hu).2.2.2⟩
  · exact (s2 hu).2.2
  · exact (s3 hu).2.2
  · rw [hp2] at hq
    rcases hq with hq | hq <;> exact absurd hq (by decide)

/-! ## Consistency of phase and time constants -/

/-- Claim C12. Let the start-up of a newly constructed client return true, and let a sequence
of `setPhase` and `getFeedback` calls, each of which returns, lead from the state the
start-up leaves to the state `c`. Then in `c`: if the phase is `approacing`, every
enabled channel runs with its approach constant; if the phase is `stance` or `walking`,
every enabled channel runs with its walking constant. Moreover the enabled channels own
their smoothers, so that every further `setPhase` call returns. (With no channel enabled
the statement holds and says nothing.) -/
theorem phase_time_constants_consistent (ar : DoubleArithmetic) (law : FilterLaw)
    (config : Searchable)
    (name : String) (period : ℚ) (names : List String) (junk : RetargetingClient)
    (calls : List Call) (c : RetargetingClient)
    (hinit : ( RetargetingClient.initialize config name period names
      (freshClient junk)).1 = true)
    (hrun : runCalls ar law calls ( RetargetingClient.initialize config name period names
      (freshClient junk)).2 = some c) :
    (c.m_phase = Phase.approacing → TimeConstantsApproaching c) ∧
    (c.m_phase = Phase.stance ∨ c.m_phase = Phase.walking → TimeConstantsWalking c) ∧
    SmoothersReady c ∧
    (∀ phase now, ∃ c2, setPhase phase now c = some c2 ∧ c2.m_phase = phase) := by
  have h0 := phaseConsistent_initialize config name period names junk hinit
  have h := phaseConsistent_runCalls ar law calls _ c h0 hrun
  refine ⟨h.2.1, h.2.2, h.1, fun phase now => ?_⟩
  obtain ⟨c2, e2, -, p2⟩ := phaseConsistent_setPhase phase now c h
  exact ⟨c2, e2, p2⟩

/-- Witness of C12 on a new client started with CoM-height retargeting, approach constant 2
and walking constant 1/2. After the first two calls of the sample run the phase is `walking`
and the smoother runs with 1/2; after the next two the phase is `approacing` and the
smoother runs with 2; after the whole run the phase is `stance` and the smoother runs
with 1/2. The operations of the run (4 - 3, 9 - 3 and the target (3/4 - 0) * 2 + 0) do not
round. -/
theorem phase_time_constants_consistent_witness :
    ((runCalls exactArithmetic jumpLaw (sampleCalls.take 2)
        ( RetargetingClient.initialize (comConfig 2 (1/2)) "walking" (1/100) []
          (freshClient newClient)).2).map
      (fun c => (c.m_phase, c.m_comHeight.timeConstant)) = some (Phase.walking, some (1/2))) ∧
    ((runCalls exactArithmetic jumpLaw (sampleCalls.take 4)
        ( RetargetingClient.initialize (comConfig 2 (1/2)) "walking" (1/100) []
          (freshClient newClient)).2).map
      (fun c => (c.m_phase, c.m_comHeight.timeConstant)) = some (Phase.approacing, some 2)) ∧
    (∃ c, runCalls exactArithmetic jumpLaw sampleCalls
        ( RetargetingClient.initialize (comConfig 2 (1/2)) "walking" (1/100) []
          (freshClient newClient)).2 = some c ∧
      c.m_phase = Phase.stance ∧ TimeConstantsWalking c ∧
      c.m_comHeight.timeConstant = some (1/2)) := by
  have m3 : (runCalls exactArithmetic jumpLaw sampleCalls
      ( RetargetingClient.initialize (comConfig 2 (1/2)) "walking" (1/100) []
        (freshClient newClient)).2).map
      (fun c => (c.m_phase, c.m_comHeight.timeConstant)) = some (Phase.stance, some (1/2)) := by
    with_unfolding_all rfl
  obtain ⟨c, hc, hf⟩ := Option.map_eq_some'.1 m3
  have hp : c.m_phase = Phase.stance := (Prod.mk.inj hf).1
  have ht : c.m_comHeight.timeConstant = some (1/2) := (Prod.mk.inj hf).2
  have h := phase_time_constants_consistent exactArithmetic jumpLaw (comConfig 2 (1/2))
    "walking" (1/100) []
    newClient sampleCalls c rfl hc
  exact ⟨by with_unfolding_all rfl, by with_unfolding_all rfl,
    c, hc, hp, h.2.1 (Or.inl hp), ht⟩

end WalkingControllers
